import Mathlib

/-!
Verification development for the bundle-from-waypoints routing core
(`gdsfactory/routing/get_bundle_from_waypoints.py`).

Coordinates are modelled as exact rationals (the Python code works on IEEE
floats; every claim under study is about exact values or about comparisons
against the fixed tolerance `1e-5`, both of which are faithfully expressed
over `ℚ`).  Fallible Python code (exceptions: `ValueError`, `IndexError`,
`KeyError`) is modelled with `Except Err`.
-/

set_option allowUnsafeReducibility true in
attribute [semireducible] Rat.add Rat.sub Rat.mul Rat.neg Rat.blt Rat.div Rat.inv

deriving instance DecidableEq for Except

namespace GdsBundle

/-- A 2-d point, as the pair `(x, y)`. -/
abbrev Pt : Type := ℚ × ℚ

/-- A segment: a pair of points `(p0, p1)`. -/
abbrev Seg : Type := Pt × Pt

/-- The error taxonomy of the routing core.  Each constructor corresponds to
one exception the Python code can raise (`ValueError` with its specific
message, `IndexError` from list indexing / unpacking, `KeyError` from the
sort-table lookup). -/
inductive Err : Type where
  | portCountMismatch : Err
  | invalidPath : Err
  | keyError : Err
  | ambiguousSeparation : Err
  | indexError : Err
  | nonManhattan : Seg → Err
  | nonManhattanIntersection : Seg → Seg → Err
deriving DecidableEq, Repr

/-- The tolerance `1e-5` used by `_is_vertical` / `_is_horizontal`. -/
def tol : ℚ := 1 / 100000

/-- Python's `abs` on a rational. -/
def rabs (q : ℚ) : ℚ := if q < 0 then -q else q

/-- `_is_vertical(segment, tol=1e-5)`: `abs(p0[0] - p1[0]) < tol`. -/
def is_vertical (s : Seg) : Bool := rabs (s.1.1 - s.2.1) < tol

/-- `_is_horizontal(segment, tol=1e-5)`: `abs(p0[1] - p1[1]) < tol`. -/
def is_horizontal (s : Seg) : Bool := rabs (s.1.2 - s.2.2) < tol

/-- `np.sign` on rationals. -/
def sign (q : ℚ) : ℚ := if 0 < q then 1 else if q < 0 then -1 else 0

/-- `_segment_sign(s)`: sign of the y-extent for a vertical segment, else the
sign of the x-extent for a horizontal one.  The Python function implicitly
returns `None` on a segment that is neither; that value is never consumed
(every caller raises first), so the model returns the junk value `0` there. -/
def segment_sign (s : Seg) : ℚ :=
  if is_vertical s then sign (s.2.2 - s.1.2)
  else if is_horizontal s then sign (s.2.1 - s.1.1)
  else 0

/-- A `Port`: position `(x, y)`, orientation angle, width. -/
structure Port : Type where
  x : ℚ
  y : ℚ
  angle : ℚ
  width : ℚ
deriving DecidableEq, Repr

def Port.midpoint (p : Port) : Pt := (p.x, p.y)

def Port.position (p : Port) : Pt := (p.x, p.y)

def Port.orientation (p : Port) : ℚ := p.angle

/-- Python list indexing `l[i]`, with negative indices counting from the
end and `IndexError` when out of range. -/
def pyGet {α : Type} (l : List α) (i : ℤ) : Except Err α :=
  let j : ℤ := if i < 0 then i + l.length else i
  if 0 ≤ j then
    match l.get? j.toNat with
    | some v => Except.ok v
    | none => Except.error Err.indexError
  else Except.error Err.indexError

/-- `ports[i]` on a port list (non-negative index only, as used by the code). -/
def port_at (ports : List Port) (i : ℕ) : Except Err Port :=
  match ports.get? i with
  | some p => Except.ok p
  | none => Except.error Err.indexError

/-- Sequential effectful map over a list in the `Except Err` monad; mirrors a
Python `for` loop that appends to an accumulator and aborts at the first
raised exception. -/
def mapME {α β : Type} (f : α → Except Err β) : List α → Except Err (List β)
  | [] => Except.ok []
  | a :: l => do
      let b ← f a
      let bs ← mapME f l
      Except.ok (b :: bs)

/-- Modelled from the spec: `get_list_ports_angle`
(`gdsfactory/routing/utils.py`, not present under `src/`) returns the
orientation shared by all ports of a bundle (spec section 3: all ports within
one bundle share the same orientation), here read off the first port. -/
def get_list_ports_angle (ports : List Port) : ℚ :=
  match ports with
  | [] => 0
  | p :: _ => p.angle

/-- `get_ports_x_or_y_distances(list_ports, ref_point)`: signed distances of
each port from the reference point, along `y` when the bundle angle is 0 or
180 and along `x` otherwise; `[]` for an empty list. -/
def get_ports_x_or_y_distances (list_ports : List Port) (ref_point : Pt) : List ℚ :=
  if list_ports.isEmpty then []
  else if get_list_ports_angle list_ports = 0 ∨ get_list_ports_angle list_ports = 180 then
    list_ports.map (fun p => p.y - ref_point.2)
  else
    list_ports.map (fun p => p.x - ref_point.1)

/-- Translate both endpoints of a segment by the same displacement vector
(the list comprehension `[np.array(p) + dp for p in s]`). -/
def translate (s : Seg) (d : Pt) : Seg :=
  ((s.1.1 + d.1, s.1.2 + d.2), (s.2.1 + d.1, s.2.2 + d.2))

/-- `_displace_segment_copy(s, a, sh, sv)`: a horizontal segment is moved by
`(0, sh * sign * a)`, else a vertical one by `(sv * sign * a, 0)`, else the
call fails (`ValueError: Segment should be manhattan`). -/
def displace_segment_copy (s : Seg) (a sh sv : ℚ) : Except Err Seg :=
  if is_horizontal s then Except.ok (translate s (0, sh * segment_sign s * a))
  else if is_vertical s then Except.ok (translate s (sv * segment_sign s * a, 0))
  else Except.error (Err.nonManhattan s)

/-- `_displace_segment_copy_group1(s, a)` : `sh = 1`, `sv = -1`. -/
def displace_segment_copy_group1 (s : Seg) (a : ℚ) : Except Err Seg :=
  displace_segment_copy s a 1 (-1)

/-- `_intersection(s1, s2)`: the corner `(sv[0][0], sh[0][1])` where `sh` is
whichever segment is horizontal and `sv` whichever is vertical; fails
(`ValueError: s1 / s2 should be h/v or v/h`) otherwise. -/
def intersection (s1 s2 : Seg) : Except Err Pt :=
  if is_horizontal s1 && is_vertical s2 then Except.ok (s2.1.1, s1.1.2)
  else if is_horizontal s2 && is_vertical s1 then Except.ok (s1.1.1, s2.1.2)
  else Except.error (Err.nonManhattanIntersection s1 s2)

/-- `snap_route_to_end_point_x(route, x)` =
`route[:-2] + [(x, y1), (x, y2)]` with `y1, y2` the ordinates of the last two
points; unpacking fails on a route shorter than 2. -/
def snap_route_to_end_point_x (route : List Pt) (x : ℚ) : Except Err (List Pt) :=
  match route.reverse with
  | e :: p :: _ => Except.ok (route.dropLast.dropLast ++ [(x, p.2), (x, e.2)])
  | _ => Except.error Err.indexError

/-- `snap_route_to_end_point_y(route, y)` =
`route[:-2] + [(x1, y), (x2, y)]` with `x1, x2` the abscissas of the last two
points. -/
def snap_route_to_end_point_y (route : List Pt) (y : ℚ) : Except Err (List Pt) :=
  match route.reverse with
  | e :: p :: _ => Except.ok (route.dropLast.dropLast ++ [(p.1, y), (e.1, y)])
  | _ => Except.error Err.indexError

/-- One corner of a route (loop body for `j > 0`): displace the current
segment by its separation, displace the previous segment by the previous
separation, and intersect. -/
def route_corner (seg prev_seg : Seg) (seg_sep prev_sep : ℚ) : Except Err Pt := do
  let d ← displace_segment_copy_group1 seg seg_sep
  let tmp ← displace_segment_copy_group1 prev_seg prev_sep
  intersection d tmp

/-- The corners produced by the inner loop for the segments after the first:
for the first element the previous segment is the route's first segment with
the start separation, afterwards the previous separation is always
`off_mid`. -/
def corners_from (prev_seg : Seg) (prev_sep off_mid : ℚ) :
    List Seg → Except Err (List Pt)
  | [] => Except.ok []
  | seg :: rest => do
      let q ← route_corner seg prev_seg off_mid prev_sep
      let qs ← corners_from seg off_mid off_mid rest
      Except.ok (q :: qs)

/-- The inner loop of `_generate_manhattan_bundle_waypoints` for one port:
first point of the displaced first segment, then one intersection corner per
later segment, then the destination position, then the end snap chosen by the
destination orientation. -/
def build_route (segs : List Seg) (off_start off_mid : ℚ) (end_pos : Pt)
    (end_angle : ℚ) : Except Err (List Pt) :=
  match segs with
  | [] => Except.ok []
  | seg0 :: rest => do
      let d0 ← displace_segment_copy_group1 seg0 off_start
      let qs ← corners_from seg0 off_start off_mid rest
      let route := d0.1 :: (qs ++ [end_pos])
      if end_angle = 0 ∨ end_angle = 180 then
        snap_route_to_end_point_y route end_pos.2
      else
        snap_route_to_end_point_x route end_pos.1

/-- `way_segments`: consecutive pairs of the waypoint list. -/
def way_segments (pts : List Pt) : List Seg := pts.zip pts.tail

/-- Modelled from the spec: the collapsing step of `remove_flat_angles`
(`gdsfactory/routing/manhattan.py`, not present under `src/`), spec
section 4.1: a run of collinear horizontal or collinear vertical points
becomes its two endpoints (the middle point of two parallel consecutive
segments is dropped).  `p0` is the last point already kept. -/
def collapse_aux (p0 : Pt) : List Pt → List Pt
  | [] => [p0]
  | [p1] => [p0, p1]
  | p1 :: p2 :: rest =>
      if (is_horizontal (p0, p1) && is_horizontal (p1, p2)) ||
         (is_vertical (p0, p1) && is_vertical (p1, p2)) then
        collapse_aux p0 (p2 :: rest)
      else
        p0 :: collapse_aux p1 (p2 :: rest)

/-- Modelled from the spec (section 4.1): collapse all collinear runs of a
waypoint list. -/
def collapse_flat : List Pt → List Pt
  | [] => []
  | p0 :: rest => collapse_aux p0 rest

/-- Modelled from the spec: `remove_flat_angles`
(`gdsfactory/routing/manhattan.py`, not present under `src/`), per spec
section 4.1: collapse collinear runs and fail with `InvalidPathError` if the
resulting path still contains a segment that is neither horizontal nor
vertical within tolerance. -/
def remove_flat_angles (pts : List Pt) : Except Err (List Pt) :=
  let c := collapse_flat pts
  if (way_segments c).all (fun s => is_horizontal s || is_vertical s) then Except.ok c
  else Except.error Err.invalidPath

/-- The `if separation:` block computing `offsets_mid`.  A `None` or zero
separation (both falsy in Python) keeps the start offsets.  Otherwise the
offsets become `sign(offsets_start[1]) * separation * i` when the first start
offset is zero, the reversed analogue via `offsets_start[-2]` when the last
one is zero, and the call fails (`ValueError: Expected offset = 0 at either
start or end of route.`) when neither is. -/
def compute_offsets_mid (separation : Option ℚ) (offsets_start : List ℚ) :
    Except Err (List ℚ) :=
  match separation with
  | none => Except.ok offsets_start
  | some s =>
      if s = 0 then Except.ok offsets_start
      else do
        let o0 ← pyGet offsets_start 0
        if o0 = 0 then do
          let o1 ← pyGet offsets_start 1
          Except.ok ((List.range offsets_start.length).map
            (fun i : ℕ => sign o1 * s * (i : ℚ)))
        else do
          let olast ← pyGet offsets_start (-1)
          if olast = 0 then do
            let o2 ← pyGet offsets_start (-2)
            Except.ok (((List.range offsets_start.length).map
              (fun i : ℕ => sign o2 * s * (i : ℚ))).reverse)
          else Except.error Err.ambiguousSeparation

/-- The sign flip applied to all offsets when the start bundle faces 90 or
270 degrees. -/
def flip_offsets (angle : ℚ) (offs : List ℚ) : List ℚ :=
  if angle = 90 ∨ angle = 270 then offs.map (fun d => -d) else offs

/-- The final fixup loop: `route[0] = start_point.midpoint` for every
`(route, start_point)` in `zip(routes, ports1)` (the two lists always have
equal length at the call site); `IndexError` on an empty route. -/
def set_head_to_ports (ports1 : List Port) (routes : List (List Pt)) :
    Except Err (List (List Pt)) :=
  mapME (fun rp : List Pt × Port =>
      match rp.1 with
      | [] => Except.error Err.indexError
      | _ :: rest => Except.ok (rp.2.midpoint :: rest))
    (routes.zip ports1)

/-- The body of the outer loop `for i in range(N)`: fetch the start and mid
offsets for port `i`, the destination port, and build the route. -/
def build_route_i (segs : List Seg) (offsets_start offsets_mid : List ℚ)
    (ports2 : List Port) (end_angle : ℚ) (i : ℕ) : Except Err (List Pt) := do
  let off_s ← pyGet offsets_start (i : ℤ)
  let off_m ← pyGet offsets_mid (i : ℤ)
  let p2 ← port_at ports2 i
  build_route segs off_s off_m p2.position end_angle

/-- `_generate_manhattan_bundle_waypoints(ports1, ports2, waypoints,
separation)`. -/
def generate_manhattan_bundle_waypoints (ports1 ports2 : List Port)
    (waypoints : List Pt) (separation : Option ℚ) :
    Except Err (List (List Pt)) := do
  let ws ← remove_flat_angles waypoints
  let segs := way_segments ws
  let w0 ← (match ws.head? with
    | some p => Except.ok p
    | none => Except.error Err.indexError)
  let offsets_start0 := get_ports_x_or_y_distances ports1 w0
  let offsets_mid0 ← compute_offsets_mid separation offsets_start0
  let pstart ← port_at ports1 0
  let offsets_start := flip_offsets pstart.orientation offsets_start0
  let offsets_mid := flip_offsets pstart.orientation offsets_mid0
  let pend ← port_at ports2 0
  let routes ← mapME (build_route_i segs offsets_start offsets_mid ports2
    pend.orientation) (List.range ports1.length)
  set_head_to_ports ports1 routes

/-- Python `int()` on a rational: truncation toward zero. -/
def pyInt (q : ℚ) : ℤ := if 0 ≤ q then ⌊q⌋ else ⌈q⌉

/-- `int(angle) % 360` with Python's floor-convention `%` (result in
`[0, 360)`). -/
def pyIntMod360 (q : ℚ) : ℚ := ((pyInt q % 360 : ℤ) : ℚ)

/-- The in-place mutation `p.angle = int(p.angle) % 360` performed by
`get_bundle_from_waypoints` on every caller-supplied port. -/
def normalize_port (p : Port) : Port := { p with angle := pyIntMod360 p.angle }

/-- One of the four sort keys of `dict_sorts`. -/
inductive SortKey : Type where
  | X : SortKey
  | Y : SortKey
  | negX : SortKey
  | negY : SortKey
deriving DecidableEq, Repr

/-- `dict_sorts`: the key function attached to each sort key. -/
def sort_val : SortKey → Port → ℚ
  | SortKey.X, p => p.x
  | SortKey.Y, p => p.y
  | SortKey.negX, p => -p.x
  | SortKey.negY, p => -p.y

/-- The fixed 16-entry `angles_to_sorttypes` lookup table; `none` models the
`KeyError` raised on a key absent from the dictionary. -/
def angles_to_sorttypes (key : ℚ × ℚ) : Option (SortKey × SortKey) :=
  if key = (0, 180) then some (SortKey.Y, SortKey.Y)
  else if key = (0, 90) then some (SortKey.Y, SortKey.X)
  else if key = (0, 0) then some (SortKey.Y, SortKey.negY)
  else if key = (0, 270) then some (SortKey.Y, SortKey.negX)
  else if key = (90, 0) then some (SortKey.X, SortKey.Y)
  else if key = (90, 90) then some (SortKey.X, SortKey.negX)
  else if key = (90, 180) then some (SortKey.X, SortKey.negY)
  else if key = (90, 270) then some (SortKey.X, SortKey.X)
  else if key = (180, 90) then some (SortKey.Y, SortKey.negX)
  else if key = (180, 0) then some (SortKey.Y, SortKey.Y)
  else if key = (180, 270) then some (SortKey.Y, SortKey.X)
  else if key = (180, 180) then some (SortKey.Y, SortKey.negY)
  else if key = (270, 90) then some (SortKey.X, SortKey.X)
  else if key = (270, 270) then some (SortKey.X, SortKey.negX)
  else if key = (270, 0) then some (SortKey.X, SortKey.negY)
  else if key = (270, 180) then some (SortKey.X, SortKey.Y)
  else none

/-- Stable insertion into a key-sorted port list (insert before the first
element with a key not smaller). -/
def ordered_insert (k : SortKey) (p : Port) : List Port → List Port
  | [] => [p]
  | q :: l =>
      if sort_val k p ≤ sort_val k q then p :: q :: l
      else q :: ordered_insert k p l

/-- Stable sort (the semantics of Python's `list.sort(key=...)`) of a port
list by one of the table's keys. -/
def sort_ports_by (k : SortKey) : List Port → List Port
  | [] => []
  | p :: l => ordered_insert k p (sort_ports_by k l)

/-- The result of a `get_bundle_from_waypoints` call: the route polylines
handed to the external Route Assembler boundary, together with the final
contents of the two caller-supplied port lists (which the Python code
mutates in place: angle normalization and sorting). -/
structure BundleResult : Type where
  routes : List (List Pt)
  ports1 : List Port
  ports2 : List Port
deriving DecidableEq, Repr

/-- `get_bundle_from_waypoints(ports1, ports2, waypoints, ...)` up to the
route polylines.  The Route Assembler boundary (`round_corners`,
`gdsfactory/routing/manhattan.py`, not under `src/`) is an external
collaborator per spec sections 4.6 and 6: it consumes each route verbatim and
yields exactly one connection per route, so the model stops at the routes. -/
def get_bundle_from_waypoints (ports1 ports2 : List Port) (waypoints : List Pt)
    (separation : Option ℚ) (sort_ports : Bool) : Except Err BundleResult :=
  if ports1.length ≠ ports2.length then Except.error Err.portCountMismatch
  else
    let ports1n := ports1.map normalize_port
    let ports2n := ports2.map normalize_port
    do
      let p10 ← port_at ports1n 0
      let p20 ← port_at ports2n 0
      let waypoints2 := p10.midpoint :: (waypoints ++ [p20.midpoint])
      match angles_to_sorttypes (p10.orientation, p20.orientation) with
      | none => Except.error Err.keyError
      | some keys => do
          let ports1s := if sort_ports then sort_ports_by keys.1 ports1n else ports1n
          let ports2s := if sort_ports then sort_ports_by keys.2 ports2n else ports2n
          let routes ← generate_manhattan_bundle_waypoints ports1s ports2s
            waypoints2 separation
          Except.ok ⟨routes, ports1s, ports2s⟩

/-! ### Notions used to state the structural theorems -/

/-- An exactly horizontal, non-degenerate segment: the two ordinates agree
exactly and the x-extent is at least the tolerance (so the segment is not
also classified as vertical). -/
def exactH (s : Seg) : Prop := s.1.2 = s.2.2 ∧ is_vertical s = false

/-- An exactly vertical, non-degenerate segment. -/
def exactV (s : Seg) : Prop := s.1.1 = s.2.1 ∧ is_horizontal s = false

/-- Axis of a segment as a flag: `true` = horizontal. -/
def axisP : Bool → Seg → Prop
  | true, s => exactH s
  | false, s => exactV s

/-- `Alt b segs`: the segments strictly alternate between horizontal and
vertical, the first one having axis `b`. -/
inductive Alt : Bool → List Seg → Prop where
  | nil (b : Bool) : Alt b []
  | cons {b : Bool} {s : Seg} {rest : List Seg} :
      axisP b s → Alt (!b) rest → Alt b (s :: rest)

/-- The constant coordinate of the displaced copy of a segment of axis `b`:
the ordinate of a displaced horizontal segment, the abscissa of a displaced
vertical one (with the kernel's `sh = 1` / `sv = -1` handedness). -/
def danchor (b : Bool) (s : Seg) (a : ℚ) : ℚ :=
  if b then s.1.2 + segment_sign s * a else s.1.1 - segment_sign s * a

/-- Closed form of the corner list produced by `corners_from` on an
alternating segment list: `b` is the axis of the previous segment and `c`
the constant coordinate of its displaced copy. -/
def spec_corners (off_mid : ℚ) : Bool → ℚ → List Seg → List Pt
  | _, _, [] => []
  | b, c, s :: rest =>
      (if b then (danchor (!b) s off_mid, c) else (c, danchor (!b) s off_mid)) ::
        spec_corners off_mid (!b) (danchor (!b) s off_mid) rest

/-- Axis flag of the last segment of `segs` when the previous segment has
axis `b` and the list alternates. -/
def finalB : Bool → List Seg → Bool
  | b, [] => b
  | b, [_] => !b
  | b, _ :: s :: rest => finalB (!b) (s :: rest)

/-- One exactly Manhattan step between consecutive route points. -/
def mstep (a b : Pt) : Prop := a.1 = b.1 ∨ a.2 = b.2

/-! ### Generic inversion and indexing lemmas -/

lemma bindOk {α β : Type} {x : Except Err α} {f : α → Except Err β} {b : β} :
    (x >>= f) = Except.ok b ↔ ∃ a, x = Except.ok a ∧ f a = Except.ok b := by
  cases x with
  | error e =>
      constructor
      · intro h; exact absurd h (by simp [Bind.bind, Except.bind])
      · rintro ⟨a, ha, -⟩; exact absurd ha (by simp)
  | ok a =>
      constructor
      · intro h; exact ⟨a, rfl, h⟩
      · rintro ⟨a', ha, hf⟩; cases ha; exact hf

lemma mapME_get {α β : Type} {f : α → Except Err β} :
    ∀ {l : List α} {ys : List β}, mapME f l = Except.ok ys →
      ys.length = l.length ∧
      ∀ i (hi : i < l.length) (hi' : i < ys.length),
        f (l.get ⟨i, hi⟩) = Except.ok (ys.get ⟨i, hi'⟩) := by
  intro l
  induction l with
  | nil =>
      intro ys h
      simp only [mapME] at h
      cases h
      exact ⟨rfl, fun i hi => by simp at hi⟩
  | cons a l ih =>
      intro ys h
      simp only [mapME] at h
      rcases bindOk.mp h with ⟨b, hb, h⟩
      rcases bindOk.mp h with ⟨bs, hbs, h⟩
      cases h
      rcases ih hbs with ⟨hlen, hget⟩
      refine ⟨by simp [hlen], ?_⟩
      intro i hi hi'
      cases i with
      | zero => simpa using hb
      | succ k =>
          simp only [List.get_cons_succ]
          exact hget k (by simpa using hi) (by simpa using hi')

lemma mapME_ok_of_forall {α β : Type} {f : α → Except Err β} :
    ∀ {l : List α}, (∀ a ∈ l, ∃ b, f a = Except.ok b) →
      ∃ ys, mapME f l = Except.ok ys := by
  intro l
  induction l with
  | nil => intro _; exact ⟨[], rfl⟩
  | cons a l ih =>
      intro h
      rcases h a (by simp) with ⟨b, hb⟩
      rcases ih (fun x hx => h x (by simp [hx])) with ⟨ys, hys⟩
      refine ⟨b :: ys, ?_⟩
      simp only [mapME, hb, hys]
      rfl

lemma pyGet_ok_of_lt {α : Type} (l : List α) (i : ℕ) (h : i < l.length) :
    pyGet l (i : ℤ) = Except.ok (l.get ⟨i, h⟩) := by
  unfold pyGet
  have h1 : ¬((i : ℤ) < 0) := by omega
  simp only [h1, if_false, if_neg, Int.toNat_natCast]
  rw [if_pos (by omega)]
  simp [List.getElem?_eq_getElem h, List.get_eq_getElem]

lemma pyGet_zero {α : Type} {l : List α} {a : α} (h : l.head? = some a) :
    pyGet l 0 = Except.ok a := by
  cases l with
  | nil => simp at h
  | cons x l =>
      cases h
      simpa using pyGet_ok_of_lt (a :: l) 0 (by simp)

lemma pyGet_neg_one {α : Type} {l : List α} {a : α} (h : l.getLast? = some a) :
    pyGet l (-1) = Except.ok a := by
  have hne : l ≠ [] := by rintro rfl; simp at h
  have hlen : 0 < l.length := List.length_pos.mpr hne
  unfold pyGet
  have h1 : (-1 : ℤ) < 0 := by omega
  simp only [h1, if_true]
  rw [if_pos (by omega)]
  have ht : ((-1 : ℤ) + l.length).toNat = l.length - 1 := by omega
  rw [ht]
  rw [List.getLast?_eq_getElem?] at h
  simp [h]

lemma pyGet_neg_two {α : Type} {l : List α} (h : 2 ≤ l.length) :
    pyGet l (-2) = Except.ok (l.get ⟨l.length - 2, by omega⟩) := by
  unfold pyGet
  have h1 : (-2 : ℤ) < 0 := by omega
  simp only [h1, if_true]
  rw [if_pos (by omega)]
  have ht : ((-2 : ℤ) + l.length).toNat = l.length - 2 := by omega
  rw [ht]
  simp [List.getElem?_eq_getElem (show l.length - 2 < l.length by omega),
    List.get_eq_getElem]

lemma pyGet_oob {α : Type} (l : List α) (i : ℕ) (h : l.length ≤ i) :
    pyGet l (i : ℤ) = Except.error Err.indexError := by
  unfold pyGet
  have h1 : ¬((i : ℤ) < 0) := by omega
  simp only [h1, if_false, if_neg, Int.toNat_natCast]
  rw [if_pos (by omega)]
  simp [List.getElem?_eq_none h]

lemma port_at_zero {ports : List Port} {p : Port} (h : ports.head? = some p) :
    port_at ports 0 = Except.ok p := by
  cases ports with
  | nil => simp at h
  | cons q l => cases h; simp [port_at]

lemma port_at_ok {ports : List Port} (i : ℕ) (h : i < ports.length) :
    port_at ports i = Except.ok (ports.get ⟨i, h⟩) := by
  simp [port_at, List.getElem?_eq_getElem h, List.get_eq_getElem]

/-! ### Structural lemmas about displacement and intersection -/

lemma exactH_horizontal {s : Seg} (h : exactH s) : is_horizontal s = true := by
  rcases h with ⟨h1, -⟩
  simp [is_horizontal, h1, rabs, tol]

lemma exactV_vertical {s : Seg} (h : exactV s) : is_vertical s = true := by
  rcases h with ⟨h1, -⟩
  simp [is_vertical, h1, rabs, tol]

lemma not_exactH_exactV {s : Seg} (hh : exactH s) (hv : exactV s) : False := by
  rcases hh with ⟨-, h2⟩
  rw [exactV_vertical hv] at h2
  cases h2

lemma translate_fst (s : Seg) (d : Pt) :
    (translate s d).1 = (s.1.1 + d.1, s.1.2 + d.2) := rfl

lemma is_horizontal_translate (s : Seg) (d : Pt) :
    is_horizontal (translate s d) = is_horizontal s := by
  simp only [is_horizontal, translate]
  rw [decide_eq_decide]
  have h : s.1.2 + d.2 - (s.2.2 + d.2) = s.1.2 - s.2.2 := by ring
  rw [h]

lemma is_vertical_translate (s : Seg) (d : Pt) :
    is_vertical (translate s d) = is_vertical s := by
  simp only [is_vertical, translate]
  rw [decide_eq_decide]
  have h : s.1.1 + d.1 - (s.2.1 + d.1) = s.1.1 - s.2.1 := by ring
  rw [h]

lemma exactH_translate {s : Seg} (h : exactH s) (d : Pt) : exactH (translate s d) := by
  rcases h with ⟨h1, h2⟩
  exact ⟨by simp [translate, h1], by rw [is_vertical_translate]; exact h2⟩

lemma exactV_translate {s : Seg} (h : exactV s) (d : Pt) : exactV (translate s d) := by
  rcases h with ⟨h1, h2⟩
  exact ⟨by simp [translate, h1], by rw [is_horizontal_translate]; exact h2⟩

lemma displace_of_exactH {s : Seg} (h : exactH s) (a : ℚ) :
    displace_segment_copy_group1 s a =
      Except.ok (translate s (0, segment_sign s * a)) ∧
    exactH (translate s (0, segment_sign s * a)) ∧
    (translate s (0, segment_sign s * a)).1 = (s.1.1, danchor true s a) := by
  refine ⟨?_, exactH_translate h _, ?_⟩
  · unfold displace_segment_copy_group1 displace_segment_copy
    rw [if_pos (exactH_horizontal h)]
    norm_num
  · simp [translate_fst, danchor]

lemma displace_of_exactV {s : Seg} (h : exactV s) (a : ℚ) :
    displace_segment_copy_group1 s a =
      Except.ok (translate s (-(segment_sign s * a), 0)) ∧
    exactV (translate s (-(segment_sign s * a), 0)) ∧
    (translate s (-(segment_sign s * a), 0)).1 = (danchor false s a, s.1.2) := by
  refine ⟨?_, exactV_translate h _, ?_⟩
  · unfold displace_segment_copy_group1 displace_segment_copy
    rw [if_neg (by simp [h.2]), if_pos (exactV_vertical h)]
    norm_num
  · simp only [translate_fst, danchor, if_neg (Bool.false_ne_true)]
    ring_nf

lemma intersection_hv {s1 s2 : Seg} (h1 : exactH s1) (h2 : exactV s2) :
    intersection s1 s2 = Except.ok (s2.1.1, s1.1.2) := by
  unfold intersection
  rw [if_pos (by simp [exactH_horizontal h1, exactV_vertical h2])]

lemma intersection_vh {s1 s2 : Seg} (h1 : exactV s1) (h2 : exactH s2) :
    intersection s1 s2 = Except.ok (s1.1.1, s2.1.2) := by
  unfold intersection
  rw [if_neg (by simp [h1.2]), if_pos (by simp [exactH_horizontal h2, exactV_vertical h1])]

/-! ### Claim theorems: displacement convention (C4) and offsets (C5) -/

/-- **C4.** Every displacement performed by the routing kernel
(`_displace_segment_copy_group1`, i.e. `sh = 1`, `sv = -1`) translates a
segment classified horizontal by `(0, +1 * sign * a)` and a segment
classified vertical (and not horizontal; the code's classification tries
horizontal first) by `(-1 * sign * a, 0)`, where `sign` is the code's
`_segment_sign` of the segment; both endpoints move by the same vector
(`translate`), and a segment that is neither horizontal nor vertical makes
the displacement fail. -/
theorem claim_C4_displacement_handedness (s : Seg) (a : ℚ) :
    (is_horizontal s = true →
      displace_segment_copy_group1 s a =
        Except.ok (translate s (0, 1 * segment_sign s * a))) ∧
    (is_horizontal s = false → is_vertical s = true →
      displace_segment_copy_group1 s a =
        Except.ok (translate s ((-1) * segment_sign s * a, 0))) ∧
    (is_horizontal s = false → is_vertical s = false →
      displace_segment_copy_group1 s a = Except.error (Err.nonManhattan s)) := by
  unfold displace_segment_copy_group1 displace_segment_copy
  refine ⟨fun h => by rw [if_pos h], fun h hv => ?_, fun h hv => by rw [if_neg (by simp [h]), if_neg (by simp [hv])]⟩
  rw [if_neg (by simp [h]), if_pos hv]

/-- Witness for C4: a concrete horizontal and a concrete vertical segment. -/
theorem claim_C4_witness :
    is_horizontal ((0, 0), (7, 0)) = true ∧
    displace_segment_copy_group1 ((0, 0), (7, 0)) 2 =
      Except.ok (translate ((0, 0), (7, 0)) (0, 1 * segment_sign ((0, 0), (7, 0)) * 2)) ∧
    is_horizontal ((0, 3), (0, 9)) = false ∧ is_vertical ((0, 3), (0, 9)) = true ∧
    displace_segment_copy_group1 ((0, 3), (0, 9)) 2 =
      Except.ok (translate ((0, 3), (0, 9)) ((-1) * segment_sign ((0, 3), (0, 9)) * 2, 0)) :=
  ⟨by decide, (claim_C4_displacement_handedness ((0, 0), (7, 0)) 2).1 (by decide),
   by decide, by decide,
   (claim_C4_displacement_handedness ((0, 3), (0, 9)) 2).2.1 (by decide) (by decide)⟩

/-- **C5.** Start offsets are `port.y - reference.y` when the bundle
orientation (the shared orientation, read off the first port) is 0 or 180,
and `port.x - reference.x` otherwise; when the orientation is 90 or 270
the subsequent flip applied by `_generate_manhattan_bundle_waypoints` to
both the start and the mid offset lists negates every offset. -/
theorem claim_C5_offsets (ports : List Port) (ref : Pt) (p0 : Port)
    (h : ports.head? = some p0) :
    (p0.angle = 0 ∨ p0.angle = 180 →
      get_ports_x_or_y_distances ports ref = ports.map (fun p => p.y - ref.2) ∧
      ∀ offs : List ℚ, flip_offsets p0.angle offs = offs) ∧
    (¬(p0.angle = 0 ∨ p0.angle = 180) →
      get_ports_x_or_y_distances ports ref = ports.map (fun p => p.x - ref.1)) ∧
    (p0.angle = 90 ∨ p0.angle = 270 →
      ∀ offs : List ℚ, flip_offsets p0.angle offs = offs.map (fun d => -d)) := by
  cases ports with
  | nil => simp at h
  | cons q l =>
      cases h
      refine ⟨fun ha => ⟨?_, fun offs => ?_⟩, fun ha => ?_, fun ha offs => ?_⟩
      · simp [get_ports_x_or_y_distances, get_list_ports_angle, ha]
      · have : ¬(p0.angle = 90 ∨ p0.angle = 270) := by
          rcases ha with h0 | h0 <;> rw [h0] <;> norm_num
        simp [flip_offsets, this]
      · simp [get_ports_x_or_y_distances, get_list_ports_angle, ha]
      · simp [flip_offsets, ha]

/-- Witness for C5: a 90-degree bundle uses x-distances and flips signs. -/
theorem claim_C5_witness :
    get_ports_x_or_y_distances [⟨2, 0, 90, 1⟩, ⟨5, 0, 90, 1⟩] (1, 7) =
      List.map (fun p : Port => p.x - (1, 7).1) [⟨2, 0, 90, 1⟩, ⟨5, 0, 90, 1⟩] ∧
    flip_offsets 90 [1, 4] = List.map (fun d : ℚ => -d) [1, 4] := by
  have h := claim_C5_offsets [⟨2, 0, 90, 1⟩, ⟨5, 0, 90, 1⟩] (1, 7) ⟨2, 0, 90, 1⟩ rfl
  refine ⟨h.2.1 (by norm_num), ?_⟩
  have h2 := h.2.2 (by norm_num) [1, 4]
  simpa using h2

/-! ### The corner construction (C2) -/

lemma bind_ok_l {α β : Type} (a : α) (f : α → Except Err β) :
    (Except.ok a >>= f) = f a := rfl

lemma bind_err {α β : Type} (e : Err) (f : α → Except Err β) :
    ((Except.error e : Except Err α) >>= f) = Except.error e := rfl

lemma route_corner_inv {seg prev_seg : Seg} {seg_sep prev_sep : ℚ} {pt : Pt}
    (h : route_corner seg prev_seg seg_sep prev_sep = Except.ok pt) :
    ∃ d t, displace_segment_copy_group1 seg seg_sep = Except.ok d ∧
      displace_segment_copy_group1 prev_seg prev_sep = Except.ok t ∧
      intersection d t = Except.ok pt := by
  unfold route_corner at h
  rcases bindOk.mp h with ⟨d, hd, h⟩
  rcases bindOk.mp h with ⟨t, ht, h⟩
  exact ⟨d, t, hd, ht, h⟩

lemma corners_from_cons_inv {prev : Seg} {ps om : ℚ} {s : Seg} {rest : List Seg}
    {pts : List Pt}
    (h : corners_from prev ps om (s :: rest) = Except.ok pts) :
    ∃ q qs, route_corner s prev om ps = Except.ok q ∧
      corners_from s om om rest = Except.ok qs ∧ pts = q :: qs := by
  simp only [corners_from] at h
  rcases bindOk.mp h with ⟨q, hq, h⟩
  rcases bindOk.mp h with ⟨qs, hqs, h⟩
  cases h
  exact ⟨q, qs, hq, hqs, rfl⟩

/-- **C2.** For every corner the inner loop produces past the first point
(the elements of `corners_from`, i.e. segment indices `j > 0` of the code),
the corner is the intersection of the current segment displaced by the
current (mid) offset with the previous segment displaced by the offset that
was used when that segment was current (the start offset for the first pair,
the mid offset afterwards); and `_intersection` takes the `y` coordinate from
the first point of whichever segment is horizontal and the `x` coordinate
from the first point of whichever is vertical, failing when the pair is not
one-horizontal/one-vertical. -/
theorem claim_C2_corner_construction :
    (∀ (prev : Seg) (prev_sep off_mid : ℚ) (segs : List Seg) (pts : List Pt),
      corners_from prev prev_sep off_mid segs = Except.ok pts →
      pts.length = segs.length ∧
      ∀ j (hj : j < segs.length) (hj' : j < pts.length),
        ∃ d t,
          displace_segment_copy_group1 (segs.get ⟨j, hj⟩) off_mid = Except.ok d ∧
          displace_segment_copy_group1
              (if j = 0 then prev else segs.get ⟨j - 1, by omega⟩)
              (if j = 0 then prev_sep else off_mid) = Except.ok t ∧
          intersection d t = Except.ok (pts.get ⟨j, hj'⟩)) ∧
    (∀ s1 s2 : Seg,
      (is_horizontal s1 = true → is_vertical s2 = true →
        intersection s1 s2 = Except.ok (s2.1.1, s1.1.2)) ∧
      (¬(is_horizontal s1 = true ∧ is_vertical s2 = true) →
        is_horizontal s2 = true → is_vertical s1 = true →
        intersection s1 s2 = Except.ok (s1.1.1, s2.1.2)) ∧
      (¬(is_horizontal s1 = true ∧ is_vertical s2 = true) →
        ¬(is_horizontal s2 = true ∧ is_vertical s1 = true) →
        intersection s1 s2 = Except.error (Err.nonManhattanIntersection s1 s2))) := by
  constructor
  · intro prev prev_sep off_mid segs
    induction segs generalizing prev prev_sep with
    | nil =>
        intro pts h
        simp only [corners_from] at h
        cases h
        exact ⟨rfl, fun j hj => by simp at hj⟩
    | cons s rest ih =>
        intro pts h
        rcases corners_from_cons_inv h with ⟨q, qs, hq, hqs, rfl⟩
        rcases ih s off_mid qs hqs with ⟨hlen, hrest⟩
        refine ⟨by simp [hlen], ?_⟩
        intro j hj hj'
        cases j with
        | zero =>
            rcases route_corner_inv hq with ⟨d, t, hd, ht, hi⟩
            exact ⟨d, t, hd, ht, hi⟩
        | succ k =>
            have hk : k < rest.length := by simpa using hj
            have hk' : k < qs.length := by simpa using hj'
            rcases hrest k hk hk' with ⟨d, t, hd, ht, hi⟩
            refine ⟨d, t, by simpa using hd, ?_, by simpa using hi⟩
            have hif : (if k + 1 = 0 then prev else (s :: rest).get ⟨k + 1 - 1, by omega⟩) =
                (if k = 0 then s else rest.get ⟨k - 1, by omega⟩) := by
              cases k with
              | zero => simp
              | succ m => simp
            rw [hif]
            have hsep : (if k + 1 = 0 then prev_sep else off_mid) =
                (if k = 0 then off_mid else off_mid) := by simp
            rw [hsep]
            exact ht
  · intro s1 s2
    refine ⟨fun h1 h2 => ?_, fun hn h2 h1 => ?_, fun hn1 hn2 => ?_⟩
    · unfold intersection
      rw [if_pos (by simp [h1, h2])]
    · unfold intersection
      rw [if_neg (by simp only [Bool.and_eq_true]; exact hn), if_pos (by simp [h1, h2])]
    · unfold intersection
      rw [if_neg (by simp only [Bool.and_eq_true]; exact hn1),
        if_neg (by simp only [Bool.and_eq_true]; exact hn2)]

/-- Witness for C2: a two-segment walk; the second corner is the
intersection of the displaced current segment with the previous segment
displaced by the previous (mid) offset. -/
theorem claim_C2_witness :
    ∃ d t,
      displace_segment_copy_group1 ((50, 40), (90, 40)) 3 = Except.ok d ∧
      displace_segment_copy_group1 ((50, 0), (50, 40)) 3 = Except.ok t ∧
      intersection d t = Except.ok (47, 43) := by
  have h := ((claim_C2_corner_construction.1 ((0, 0), (50, 0)) 5 3
    [((50, 0), (50, 40)), ((50, 40), (90, 40))] [(47, 5), (47, 43)] (by decide)).2
    1 (by decide) (by decide))
  simpa using h

/-! ### The separation branch (C3, C9, C10) -/

/-- **C3, counterexample.**  With separation 5 and a two-port bundle whose
start offsets are `[0, 0]` (both the first and the last start offset are
zero, so "exactly one of the first or last start offset is exactly zero"
fails), the claim predicts an `AmbiguousSeparationError`; the code instead
silently takes the first branch (`sign(offsets_start[1]) = 0`) and the whole
call succeeds. -/
theorem claim_C3_counterexample :
    get_ports_x_or_y_distances [⟨0, 0, 0, 1⟩, ⟨5, 0, 0, 1⟩] (0, 0) = [0, 0] ∧
    compute_offsets_mid (some 5) [0, 0] = Except.ok [0, 0] ∧
    generate_manhattan_bundle_waypoints [⟨0, 0, 0, 1⟩, ⟨5, 0, 0, 1⟩]
        [⟨55, 40, 90, 1⟩, ⟨60, 40, 90, 1⟩] [(0, 0), (50, 0), (50, 40)] (some 5) =
      Except.ok [[(0, 0), (55, 0), (55, 40)], [(5, 0), (60, 0), (60, 40)]] := by
  refine ⟨by decide, by decide, by decide⟩

/-- **C3, amended.**  With a non-zero separation, mid-path offsets are
`sign(offsets_start[1]) * separation * i` when the *first* start offset is
zero (regardless of the last one), the reversed
`sign(offsets_start[-2]) * separation * i` when the first is non-zero and
the last is zero, and the call fails with the ambiguous-separation error
only when *neither* the first nor the last start offset is zero.  In
particular, for start offsets `[0, 3, 7]` and separation 5 the mid offsets
are `[0, 5, 10]`, signed by the second start offset. -/
theorem claim_C3_amended (s : ℚ) (offs : List ℚ) (hs : s ≠ 0) :
    (∀ o1, offs.head? = some 0 → offs.get? 1 = some o1 →
      compute_offsets_mid (some s) offs =
        Except.ok ((List.range offs.length).map fun i : ℕ => sign o1 * s * (i : ℚ))) ∧
    (∀ o0 o2, offs.head? = some o0 → o0 ≠ 0 → offs.getLast? = some 0 →
      offs.get? (offs.length - 2) = some o2 →
      compute_offsets_mid (some s) offs =
        Except.ok (((List.range offs.length).map fun i : ℕ => sign o2 * s * (i : ℚ)).reverse)) ∧
    (∀ o0 oN, offs.head? = some o0 → o0 ≠ 0 → offs.getLast? = some oN → oN ≠ 0 →
      compute_offsets_mid (some s) offs = Except.error Err.ambiguousSeparation) ∧
    compute_offsets_mid (some 5) [0, 3, 7] = Except.ok [0, 5, 10] := by
  refine ⟨?_, ?_, ?_, by decide⟩
  · intro o1 h0 h1
    have hlt : 1 < offs.length := by
      rcases List.get?_eq_some.mp h1 with ⟨hl, -⟩
      exact hl
    have hget : offs.get ⟨1, hlt⟩ = o1 := by
      rcases List.get?_eq_some.mp h1 with ⟨hl, he⟩
      exact he
    simp only [compute_offsets_mid]
    rw [if_neg hs, pyGet_zero h0, bind_ok_l]
    rw [if_pos rfl]
    have h1' : pyGet offs 1 = Except.ok o1 := by
      have := pyGet_ok_of_lt offs 1 hlt
      rw [hget] at this
      simpa using this
    rw [h1', bind_ok_l]
  · intro o0 o2 h0 hne hN h2
    have hlen : 2 ≤ offs.length := by
      rcases offs with - | ⟨a, l⟩
      · simp at h0
      · rcases l with - | ⟨b, l⟩
        · exfalso
          simp at h0 hN
          exact hne (by rw [h0] at hN; exact hN)
        · simp only [List.length_cons]
          omega
    simp only [compute_offsets_mid]
    rw [if_neg hs, pyGet_zero h0, bind_ok_l, if_neg hne, pyGet_neg_one hN, bind_ok_l,
      if_pos rfl]
    have h2' : pyGet offs (-2) = Except.ok o2 := by
      rw [pyGet_neg_two hlen]
      rcases List.get?_eq_some.mp h2 with ⟨hl, he⟩
      rw [he]
    rw [h2', bind_ok_l]
  · intro o0 oN h0 hne0 hN hneN
    simp only [compute_offsets_mid]
    rw [if_neg hs, pyGet_zero h0, bind_ok_l, if_neg hne0, pyGet_neg_one hN, bind_ok_l,
      if_neg hneN]

/-- Witness for the amended C3: the spec's own scenario, through the first
branch. -/
theorem claim_C3_witness :
    compute_offsets_mid (some 5) [0, 3, 7] =
      Except.ok ((List.range 3).map fun i : ℕ => sign 3 * 5 * (i : ℚ)) ∧
    ((List.range 3).map fun i : ℕ => sign 3 * 5 * (i : ℚ)) = [0, 5, 10] := by
  refine ⟨?_, by decide⟩
  exact (claim_C3_amended 5 [0, 3, 7] (by norm_num)).1 3 (by decide) (by decide)

/-- **C9.**  When a non-zero separation is supplied and *both* the first and
the last start offset are exactly zero, no error is raised: the first branch
is taken silently and the mid offsets are
`sign(offsets_start[1]) * separation * i`. -/
theorem claim_C9_both_zero_silent (s : ℚ) (offs : List ℚ) (o1 : ℚ) (hs : s ≠ 0)
    (h0 : offs.head? = some 0) (hN : offs.getLast? = some 0)
    (h1 : offs.get? 1 = some o1) :
    compute_offsets_mid (some s) offs =
      Except.ok ((List.range offs.length).map fun i : ℕ => sign o1 * s * (i : ℚ)) := by
  have hlt : 1 < offs.length := (List.get?_eq_some.mp h1).1
  simp only [compute_offsets_mid]
  rw [if_neg hs, pyGet_zero h0, bind_ok_l, if_pos rfl]
  have h1' : pyGet offs 1 = Except.ok o1 := by
    have h := pyGet_ok_of_lt offs 1 hlt
    rw [(List.get?_eq_some.mp h1).2] at h
    simpa using h
  rw [h1', bind_ok_l]

/-- Witness for C9: start offsets `[0, 5, 0]` (both extremes zero),
separation 5: silently `[0, 5, 10]`. -/
theorem claim_C9_witness :
    compute_offsets_mid (some 5) [0, 5, 0] =
      Except.ok ((List.range 3).map fun i : ℕ => sign 5 * 5 * (i : ℚ)) ∧
    ((List.range 3).map fun i : ℕ => sign 5 * 5 * (i : ℚ)) = [0, 5, 10] := by
  refine ⟨?_, by decide⟩
  exact claim_C9_both_zero_silent 5 [0, 5, 0] 5 (by norm_num) (by decide) (by decide)
    (by decide)

/-- **C10.**  A single-port bundle with a non-zero separation can never get
past the separation branch: when the lone start offset is zero the access
`offsets_start[1]` is out of bounds (`IndexError`), otherwise the
ambiguous-separation error is raised — for every destination bundle and
every waypoint list that survives normalization with a head point. -/
theorem claim_C10_single_port_fails (p : Port) (ports2 : List Port)
    (waypoints : List Pt) (s : ℚ) (ws : List Pt) (w0 : Pt) (hs : s ≠ 0)
    (hn : remove_flat_angles waypoints = Except.ok ws) (hh : ws.head? = some w0) :
    generate_manhattan_bundle_waypoints [p] ports2 waypoints (some s) =
      Except.error
        (if (if p.angle = 0 ∨ p.angle = 180 then p.y - w0.2 else p.x - w0.1) = 0
         then Err.indexError else Err.ambiguousSeparation) := by
  have hoffs : get_ports_x_or_y_distances [p] w0 =
      [if p.angle = 0 ∨ p.angle = 180 then p.y - w0.2 else p.x - w0.1] := by
    by_cases h : p.angle = 0 ∨ p.angle = 180 <;>
      simp [get_ports_x_or_y_distances, get_list_ports_angle, h]
  have hcomp : compute_offsets_mid (some s) (get_ports_x_or_y_distances [p] w0) =
      Except.error
        (if (if p.angle = 0 ∨ p.angle = 180 then p.y - w0.2 else p.x - w0.1) = 0
         then Err.indexError else Err.ambiguousSeparation) := by
    rw [hoffs]
    set o : ℚ := if p.angle = 0 ∨ p.angle = 180 then p.y - w0.2 else p.x - w0.1 with ho
    simp only [compute_offsets_mid]
    rw [if_neg hs, pyGet_zero (by rfl : ([o] : List ℚ).head? = some o), bind_ok_l]
    by_cases h0 : o = 0
    · rw [if_pos h0, if_pos h0]
      have : pyGet ([o] : List ℚ) 1 = Except.error Err.indexError := by
        have := pyGet_oob ([o] : List ℚ) 1 (by simp)
        simpa using this
      rw [this, bind_err]
    · rw [if_neg h0, if_neg h0,
        pyGet_neg_one (by rfl : ([o] : List ℚ).getLast? = some o), bind_ok_l, if_neg h0]
  simp only [generate_manhattan_bundle_waypoints]
  rw [hn, bind_ok_l, hh]
  rw [show ((match some w0 with
      | some q => Except.ok q
      | none => Except.error Err.indexError) : Except Err Pt) = Except.ok w0 from rfl,
    bind_ok_l, hcomp, bind_err]

/-- Witness for C10, both failure modes at concrete inputs. -/
theorem claim_C10_witness :
    generate_manhattan_bundle_waypoints [⟨0, 0, 0, 1⟩] [] [(0, 0), (50, 0)] (some 5) =
      Except.error Err.indexError ∧
    generate_manhattan_bundle_waypoints [⟨0, 5, 0, 1⟩] [] [(0, 0), (50, 0)] (some 5) =
      Except.error Err.ambiguousSeparation := by
  constructor
  · have h := claim_C10_single_port_fails ⟨0, 0, 0, 1⟩ [] [(0, 0), (50, 0)] 5
      [(0, 0), (50, 0)] (0, 0) (by norm_num) (by decide) (by decide)
    simpa using h
  · have h := claim_C10_single_port_fails ⟨0, 5, 0, 1⟩ [] [(0, 0), (50, 0)] 5
      [(0, 0), (50, 0)] (0, 0) (by norm_num) (by decide) (by decide)
    simpa using h

/-! ### Route endpoints (C1) -/

lemma two_tail_decomp {α : Type} (l : List α) (h : 2 ≤ l.length) :
    ∃ front p e, l = front ++ [p, e] := by
  rcases hr : l.reverse with - | ⟨e, t⟩
  · exfalso
    have : l = [] := by simpa using congrArg List.reverse hr
    rw [this] at h
    simp at h
  · rcases t with - | ⟨p, t2⟩
    · exfalso
      have : l = [e] := by simpa using congrArg List.reverse hr
      rw [this] at h
      simp at h
    · refine ⟨t2.reverse, p, e, ?_⟩
      have : l = (e :: p :: t2).reverse := by simpa using congrArg List.reverse hr
      rw [this]
      simp

lemma snap_y_spec (l : List Pt) (p e : Pt) (y : ℚ) :
    snap_route_to_end_point_y (l ++ [p, e]) y =
      Except.ok (l ++ [(p.1, y), (e.1, y)]) := by
  unfold snap_route_to_end_point_y
  have hrev : (l ++ [p, e]).reverse = e :: p :: l.reverse := by simp
  rw [hrev]
  have hdrop : ((l ++ [p, e]).dropLast).dropLast = l := by
    have h1 : l ++ [p, e] = (l ++ [p]) ++ [e] := by simp
    rw [h1, List.dropLast_concat, List.dropLast_concat]
  rw [hdrop]

lemma snap_x_spec (l : List Pt) (p e : Pt) (x : ℚ) :
    snap_route_to_end_point_x (l ++ [p, e]) x =
      Except.ok (l ++ [(x, p.2), (x, e.2)]) := by
  unfold snap_route_to_end_point_x
  have hrev : (l ++ [p, e]).reverse = e :: p :: l.reverse := by simp
  rw [hrev]
  have hdrop : ((l ++ [p, e]).dropLast).dropLast = l := by
    have h1 : l ++ [p, e] = (l ++ [p]) ++ [e] := by simp
    rw [h1, List.dropLast_concat, List.dropLast_concat]
  rw [hdrop]

lemma build_route_inv {segs : List Seg} {off_s off_m : ℚ} {end_pos : Pt}
    {end_angle : ℚ} {r : List Pt}
    (h : build_route segs off_s off_m end_pos end_angle = Except.ok r) :
    r = [] ∨ (2 ≤ r.length ∧ r.getLast? = some end_pos) := by
  rcases segs with - | ⟨seg0, rest⟩
  · left
    simp only [build_route] at h
    cases h
    rfl
  · right
    simp only [build_route] at h
    rcases bindOk.mp h with ⟨d0, hd0, h⟩
    rcases bindOk.mp h with ⟨qs, hqs, h⟩
    rcases two_tail_decomp (d0.1 :: (qs ++ [end_pos])) (by simp) with ⟨front, p, e, hde⟩
    have hlast : ((d0.1 :: (qs ++ [end_pos])) : List Pt).getLast? = some end_pos := by
      have hshape : (d0.1 :: (qs ++ [end_pos]) : List Pt) = (d0.1 :: qs) ++ [end_pos] := by
        simp
      rw [hshape, List.getLast?_concat]
    have he : e = end_pos := by
      rw [hde] at hlast
      have h2 : front ++ [p, e] = (front ++ [p]) ++ [e] := by simp
      rw [h2, List.getLast?_concat] at hlast
      exact Option.some.inj hlast
    rw [he] at hde
    rw [hde] at h
    by_cases hea : end_angle = 0 ∨ end_angle = 180
    · rw [if_pos hea, snap_y_spec] at h
      cases h
      constructor
      · simp
      · have h2 : front ++ [(p.1, end_pos.2), (end_pos.1, end_pos.2)] =
            (front ++ [(p.1, end_pos.2)]) ++ [(end_pos.1, end_pos.2)] := by simp
        rw [h2, List.getLast?_concat]
    · rw [if_neg hea, snap_x_spec] at h
      cases h
      constructor
      · simp
      · have h2 : front ++ [(end_pos.1, p.2), (end_pos.1, end_pos.2)] =
            (front ++ [(end_pos.1, p.2)]) ++ [(end_pos.1, end_pos.2)] := by simp
        rw [h2, List.getLast?_concat]

lemma build_route_i_inv {segs : List Seg} {offs_s offs_m : List ℚ}
    {ports2 : List Port} {end_angle : ℚ} {i : ℕ} {r : List Pt}
    (h : build_route_i segs offs_s offs_m ports2 end_angle i = Except.ok r) :
    ∃ off_s off_m p2,
      pyGet offs_s (i : ℤ) = Except.ok off_s ∧
      pyGet offs_m (i : ℤ) = Except.ok off_m ∧
      port_at ports2 i = Except.ok p2 ∧
      build_route segs off_s off_m p2.position end_angle = Except.ok r := by
  unfold build_route_i at h
  rcases bindOk.mp h with ⟨off_s, h1, h⟩
  rcases bindOk.mp h with ⟨off_m, h2, h⟩
  rcases bindOk.mp h with ⟨p2, h3, h⟩
  exact ⟨off_s, off_m, p2, h1, h2, h3, h⟩

lemma generate_ok_inv {ports1 ports2 : List Port} {waypoints : List Pt}
    {separation : Option ℚ} {routes : List (List Pt)}
    (h : generate_manhattan_bundle_waypoints ports1 ports2 waypoints separation =
      Except.ok routes) :
    ∃ ws w0 mids pstart pend bs,
      remove_flat_angles waypoints = Except.ok ws ∧
      ws.head? = some w0 ∧
      compute_offsets_mid separation (get_ports_x_or_y_distances ports1 w0) =
        Except.ok mids ∧
      port_at ports1 0 = Except.ok pstart ∧
      port_at ports2 0 = Except.ok pend ∧
      mapME (build_route_i (way_segments ws)
          (flip_offsets pstart.orientation (get_ports_x_or_y_distances ports1 w0))
          (flip_offsets pstart.orientation mids) ports2 pend.orientation)
        (List.range ports1.length) = Except.ok bs ∧
      set_head_to_ports ports1 bs = Except.ok routes := by
  unfold generate_manhattan_bundle_waypoints at h
  rcases bindOk.mp h with ⟨ws, hws, h⟩
  rcases bindOk.mp h with ⟨w0, hw0, h⟩
  have hw0' : ws.head? = some w0 := by
    rcases hh : ws.head? with - | p
    · rw [hh] at hw0
      cases hw0
    · rw [hh] at hw0
      cases hw0
      exact rfl
  rcases bindOk.mp h with ⟨mids, hmids, h⟩
  rcases bindOk.mp h with ⟨pstart, hps, h⟩
  rcases bindOk.mp h with ⟨pend, hpe, h⟩
  rcases bindOk.mp h with ⟨bs, hbs, h⟩
  exact ⟨ws, w0, mids, pstart, pend, bs, hws, hw0', hmids, hps, hpe, hbs, h⟩

lemma set_head_inv {ports1 : List Port} {bs routes : List (List Pt)}
    (h : set_head_to_ports ports1 bs = Except.ok routes) :
    routes.length = (bs.zip ports1).length ∧
    ∀ i (hi : i < routes.length) (hbi : i < bs.length) (hpi : i < ports1.length),
      ∃ b0 rest, bs.get ⟨i, hbi⟩ = b0 :: rest ∧
        routes.get ⟨i, hi⟩ = (ports1.get ⟨i, hpi⟩).midpoint :: rest := by
  unfold set_head_to_ports at h
  rcases mapME_get h with ⟨hlen, hget⟩
  refine ⟨hlen, ?_⟩
  intro i hi hbi hpi
  have hzi : i < (bs.zip ports1).length := by
    rw [List.length_zip]
    omega
  have hz := hget i hzi hi
  have hzv : (bs.zip ports1).get ⟨i, hzi⟩ =
      (bs.get ⟨i, hbi⟩, ports1.get ⟨i, hpi⟩) := by
    simp [List.get_eq_getElem, List.getElem_zip]
  rw [hzv] at hz
  rcases hb : bs.get ⟨i, hbi⟩ with - | ⟨b0, rest⟩
  · rw [hb] at hz
    cases hz
  · rw [hb] at hz
    exact ⟨b0, rest, rfl, (Except.ok.inj hz).symm⟩

/-- **C1.**  Whenever `_generate_manhattan_bundle_waypoints` succeeds, the
first point of the `i`-th route is exactly the `i`-th source port's midpoint
(it is overwritten with it) and the last point is exactly the `i`-th
destination port's position (the end snap preserves it); exact equality, so
in particular equality within the tolerance `1e-5`. -/
theorem claim_C1_route_endpoints (ports1 ports2 : List Port) (waypoints : List Pt)
    (separation : Option ℚ) (routes : List (List Pt))
    (h : generate_manhattan_bundle_waypoints ports1 ports2 waypoints separation =
      Except.ok routes) :
    routes.length = ports1.length ∧
    ∀ i (hi : i < routes.length) (h1 : i < ports1.length) (h2 : i < ports2.length),
      (routes.get ⟨i, hi⟩).head? = some ((ports1.get ⟨i, h1⟩).midpoint) ∧
      (routes.get ⟨i, hi⟩).getLast? = some ((ports2.get ⟨i, h2⟩).position) := by
  rcases generate_ok_inv h with ⟨ws, w0, mids, pstart, pend, bs, -, -, -, -, -, hbs, hsh⟩
  rcases mapME_get hbs with ⟨hbslen, hbget⟩
  rcases set_head_inv hsh with ⟨hrlen, hrget⟩
  have hbs1 : bs.length = ports1.length := by simpa using hbslen
  have hlen : routes.length = ports1.length := by
    rw [hrlen, List.length_zip]
    omega
  refine ⟨hlen, ?_⟩
  intro i hi h1 h2
  have hbi : i < bs.length := by omega
  rcases hrget i hi hbi h1 with ⟨b0, rest, hbsi, hri⟩
  have hri' := hri
  constructor
  · rw [hri]
    rfl
  · have hii : i < (List.range ports1.length).length := by simpa using h1
    have hb := hbget i hii hbi
    have hrange : (List.range ports1.length).get ⟨i, hii⟩ = i := by
      simp [List.get_eq_getElem]
    rw [hrange] at hb
    rcases build_route_i_inv hb with ⟨off_s, off_m, p2, -, -, hp2, hbuild⟩
    have hp2' : p2 = ports2.get ⟨i, h2⟩ := by
      rw [port_at_ok i h2] at hp2
      exact (Except.ok.inj hp2).symm
    rcases build_route_inv hbuild with hnil | ⟨hlen2, hlast⟩
    · rw [hnil] at hbsi
      cases hbsi
    · have hrest : rest ≠ [] := by
        rintro rfl
        rw [hbsi] at hlen2
        simp at hlen2
      rw [hri]
      have hcons : ((ports1.get ⟨i, h1⟩).midpoint :: rest).getLast? = rest.getLast? := by
        rcases rest with - | ⟨c, t⟩
        · exact absurd rfl hrest
        · simp
      rw [hcons]
      have hlast2 : (b0 :: rest).getLast? = rest.getLast? := by
        rcases rest with - | ⟨c, t⟩
        · exact absurd rfl hrest
        · simp
      rw [hbsi, hlast2] at hlast
      rw [hlast, hp2']

/-- Witness for C1: a concrete successful two-segment bundle call. -/
theorem claim_C1_witness :
    (([(0, 5), (55, 5), (55, 40)] : List Pt).head? =
      some ((⟨0, 5, 0, 1⟩ : Port).midpoint)) ∧
    (([(0, 5), (55, 5), (55, 40)] : List Pt).getLast? =
      some ((⟨55, 40, 90, 1⟩ : Port).position)) := by
  have h := (claim_C1_route_endpoints [⟨0, 5, 0, 1⟩] [⟨55, 40, 90, 1⟩]
    [(0, 0), (50, 0), (50, 40)] none [[(0, 5), (55, 5), (55, 40)]] (by decide)).2
    0 (by norm_num) (by norm_num) (by norm_num)
  simpa using h

/-! ### The bundle-level call: port count (C8) and port mutation (C7) -/

lemma length_ordered_insert (k : SortKey) (p : Port) (l : List Port) :
    (ordered_insert k p l).length = l.length + 1 := by
  induction l with
  | nil => rfl
  | cons q t ih =>
      simp only [ordered_insert]
      by_cases hle : sort_val k p ≤ sort_val k q
      · rw [if_pos hle]
        rfl
      · rw [if_neg hle]
        simp [ih]

lemma length_sort_ports_by (k : SortKey) (l : List Port) :
    (sort_ports_by k l).length = l.length := by
  induction l with
  | nil => rfl
  | cons p t ih => simp [sort_ports_by, length_ordered_insert, ih]

lemma perm_ordered_insert (k : SortKey) (p : Port) (l : List Port) :
    (ordered_insert k p l).Perm (p :: l) := by
  induction l with
  | nil => exact List.Perm.refl _
  | cons q t ih =>
      simp only [ordered_insert]
      by_cases hle : sort_val k p ≤ sort_val k q
      · rw [if_pos hle]
      · rw [if_neg hle]
        exact (ih.cons q).trans (List.Perm.swap p q t)

lemma perm_sort_ports_by (k : SortKey) (l : List Port) :
    (sort_ports_by k l).Perm l := by
  induction l with
  | nil => exact List.Perm.refl _
  | cons p t ih => exact (perm_ordered_insert k p (sort_ports_by k t)).trans (ih.cons p)

lemma get_bundle_inv {ports1 ports2 : List Port} {waypoints : List Pt}
    {separation : Option ℚ} {sp : Bool} {res : BundleResult}
    (h : get_bundle_from_waypoints ports1 ports2 waypoints separation sp =
      Except.ok res) :
    ports1.length = ports2.length ∧
    ∃ p10 p20 keys routes,
      port_at (ports1.map normalize_port) 0 = Except.ok p10 ∧
      port_at (ports2.map normalize_port) 0 = Except.ok p20 ∧
      angles_to_sorttypes (p10.orientation, p20.orientation) = some keys ∧
      generate_manhattan_bundle_waypoints
        (if sp then sort_ports_by keys.1 (ports1.map normalize_port)
         else ports1.map normalize_port)
        (if sp then sort_ports_by keys.2 (ports2.map normalize_port)
         else ports2.map normalize_port)
        (p10.midpoint :: (waypoints ++ [p20.midpoint])) separation =
        Except.ok routes ∧
      res = ⟨routes,
        (if sp then sort_ports_by keys.1 (ports1.map normalize_port)
         else ports1.map normalize_port),
        (if sp then sort_ports_by keys.2 (ports2.map normalize_port)
         else ports2.map normalize_port)⟩ := by
  unfold get_bundle_from_waypoints at h
  by_cases hlen : ports1.length ≠ ports2.length
  · rw [if_pos hlen] at h
    cases h
  · rw [if_neg hlen] at h
    refine ⟨by omega, ?_⟩
    rcases bindOk.mp h with ⟨p10, hp10, h⟩
    rcases bindOk.mp h with ⟨p20, hp20, h⟩
    rcases htab : angles_to_sorttypes (p10.orientation, p20.orientation) with - | keys
    · rw [htab] at h
      cases h
    · rw [htab] at h
      rcases bindOk.mp h with ⟨routes, hroutes, h⟩
      exact ⟨p10, p20, keys, routes, hp10, hp20, htab, hroutes,
        (Except.ok.inj h).symm⟩

lemma generate_ok_length {ports1 ports2 : List Port} {waypoints : List Pt}
    {separation : Option ℚ} {routes : List (List Pt)}
    (h : generate_manhattan_bundle_waypoints ports1 ports2 waypoints separation =
      Except.ok routes) :
    routes.length = ports1.length := by
  rcases generate_ok_inv h with ⟨ws, w0, mids, pstart, pend, bs, -, -, -, -, -, hbs, hsh⟩
  have hbs1 : bs.length = ports1.length := by simpa using (mapME_get hbs).1
  unfold set_head_to_ports at hsh
  have := (mapME_get hsh).1
  rw [this, List.length_zip]
  omega

/-- **C8.**  If the two bundles differ in length, `get_bundle_from_waypoints`
fails immediately with the port-count-mismatch error (the check is the first
statement of the function; in the `Except` model no partial result exists);
on every successful call the number of routes equals the common bundle
length. -/
theorem claim_C8_port_count (ports1 ports2 : List Port) (waypoints : List Pt)
    (separation : Option ℚ) (sp : Bool) :
    (ports1.length ≠ ports2.length →
      get_bundle_from_waypoints ports1 ports2 waypoints separation sp =
        Except.error Err.portCountMismatch) ∧
    (∀ res, get_bundle_from_waypoints ports1 ports2 waypoints separation sp =
        Except.ok res →
      res.routes.length = ports1.length ∧ res.routes.length = ports2.length) := by
  constructor
  · intro hne
    unfold get_bundle_from_waypoints
    rw [if_pos hne]
  · intro res h
    rcases get_bundle_inv h with ⟨hlen, p10, p20, keys, routes, -, -, -, hgen, hres⟩
    have hrl := generate_ok_length hgen
    have hsl : (if sp then sort_ports_by keys.1 (ports1.map normalize_port)
        else ports1.map normalize_port).length = ports1.length := by
      by_cases hsp : sp = true
      · rw [if_pos hsp, length_sort_ports_by, List.length_map]
      · rw [if_neg hsp, List.length_map]
    rw [hres]
    constructor
    · simpa [hsl] using hrl
    · rw [← hlen]
      simpa [hsl] using hrl

/-- Witness for C8: a mismatched call fails, a matched one returns one route
per port pair. -/
theorem claim_C8_witness :
    get_bundle_from_waypoints [] [⟨0, 50, 270, 1⟩] [] none true =
      Except.error Err.portCountMismatch ∧
    (BundleResult.mk [[(0, 0), (0, 50)]] [⟨0, 0, 90, 1⟩]
        [⟨0, 50, 270, 1⟩]).routes.length = 1 := by
  constructor
  · exact (claim_C8_port_count [] [⟨0, 50, 270, 1⟩] [] none true).1 (by norm_num)
  · exact ((claim_C8_port_count [⟨0, 0, 90, 1⟩] [⟨0, 50, 270, 1⟩] [] none true).2
      ⟨[[(0, 0), (0, 50)]], [⟨0, 0, 90, 1⟩], [⟨0, 50, 270, 1⟩]⟩ (by decide)).1

/-- **C7, counterexample.**  `get_bundle_from_waypoints` mutates the
caller-supplied ports in place: a port supplied with angle 450 comes out of
the call with angle `int(450) % 360 = 90 ≠ 450` (and the lists are sorted in
place as well), so the port's angle after the call does not equal its value
before the call. -/
theorem claim_C7_counterexample :
    get_bundle_from_waypoints [⟨0, 0, 450, 1⟩] [⟨0, 50, 270, 1⟩] [] none true =
      Except.ok ⟨[[(0, 0), (0, 50)]], [⟨0, 0, 90, 1⟩], [⟨0, 50, 270, 1⟩]⟩ ∧
    (⟨0, 0, 90, 1⟩ : Port).angle ≠ (⟨0, 0, 450, 1⟩ : Port).angle := by
  exact ⟨by decide, by decide⟩

lemma normalize_port_cardinal {p : Port}
    (h : p.angle = 0 ∨ p.angle = 90 ∨ p.angle = 180 ∨ p.angle = 270) :
    normalize_port p = p := by
  have ha : pyIntMod360 p.angle = p.angle := by
    rcases h with h | h | h | h <;> rw [h] <;> decide
  rcases p with ⟨px, py, pa, pw⟩
  simp only [normalize_port, Port.mk.injEq, and_true, true_and]
  exact ha

lemma map_normalize_cardinal {l : List Port}
    (h : ∀ p ∈ l, p.angle = 0 ∨ p.angle = 90 ∨ p.angle = 180 ∨ p.angle = 270) :
    l.map normalize_port = l := by
  induction l with
  | nil => rfl
  | cons p t ih =>
      simp only [List.map_cons, normalize_port_cardinal (h p (by simp)),
        ih (fun q hq => h q (by simp [hq])), List.cons.injEq]

/-- **C7, amended.**  `get_bundle_from_waypoints` does mutate the
caller-supplied port objects and lists in place (each angle is replaced by
`int(angle) % 360` and both lists are sorted); however, for valid inputs
whose angles are already cardinal (0, 90, 180 or 270 — as the data model
requires) the normalization is the identity, so after a successful call each
port list is a permutation of the original one, every port keeping its
angle, position and width. -/
theorem claim_C7_amended (ports1 ports2 : List Port) (waypoints : List Pt)
    (separation : Option ℚ) (sp : Bool) (res : BundleResult)
    (h1 : ∀ p ∈ ports1, p.angle = 0 ∨ p.angle = 90 ∨ p.angle = 180 ∨ p.angle = 270)
    (h2 : ∀ p ∈ ports2, p.angle = 0 ∨ p.angle = 90 ∨ p.angle = 180 ∨ p.angle = 270)
    (h : get_bundle_from_waypoints ports1 ports2 waypoints separation sp =
      Except.ok res) :
    res.ports1.Perm ports1 ∧ res.ports2.Perm ports2 := by
  rcases get_bundle_inv h with ⟨-, p10, p20, keys, routes, -, -, -, -, hres⟩
  rw [hres]
  constructor
  · show (if sp then sort_ports_by keys.1 (ports1.map normalize_port)
      else ports1.map normalize_port).Perm ports1
    rw [map_normalize_cardinal h1]
    by_cases hsp : sp = true
    · rw [if_pos hsp]
      exact perm_sort_ports_by keys.1 ports1
    · rw [if_neg hsp]
  · show (if sp then sort_ports_by keys.2 (ports2.map normalize_port)
      else ports2.map normalize_port).Perm ports2
    rw [map_normalize_cardinal h2]
    by_cases hsp : sp = true
    · rw [if_pos hsp]
      exact perm_sort_ports_by keys.2 ports2
    · rw [if_neg hsp]

/-- Witness for the amended C7: a cardinal-angle call leaves both port lists
as permutations of the inputs. -/
theorem claim_C7_witness :
    (BundleResult.mk [[(0, 0), (0, 50)]] [⟨0, 0, 90, 1⟩]
        [⟨0, 50, 270, 1⟩]).ports1.Perm [⟨0, 0, 90, 1⟩] ∧
    (BundleResult.mk [[(0, 0), (0, 50)]] [⟨0, 0, 90, 1⟩]
        [⟨0, 50, 270, 1⟩]).ports2.Perm [⟨0, 50, 270, 1⟩] := by
  exact claim_C7_amended [⟨0, 0, 90, 1⟩] [⟨0, 50, 270, 1⟩] [] none true
    ⟨[[(0, 0), (0, 50)]], [⟨0, 0, 90, 1⟩], [⟨0, 50, 270, 1⟩]⟩
    (by intro p hp; simp at hp; rw [hp]; norm_num)
    (by intro p hp; simp at hp; rw [hp]; norm_num)
    (by decide)

/-! ### Manhattan structure of the routes (C6) -/

lemma axisP_unique {b1 b2 : Bool} {s : Seg} (h1 : axisP b1 s) (h2 : axisP b2 s) :
    b1 = b2 := by
  cases b1 <;> cases b2
  · rfl
  · exact (not_exactH_exactV h2 h1).elim
  · exact (not_exactH_exactV h1 h2).elim
  · rfl

lemma finalB_cons_ne {b : Bool} {s : Seg} {rest : List Seg} (h : rest ≠ []) :
    finalB b (s :: rest) = finalB (!b) rest := by
  rcases rest with - | ⟨r1, r2⟩
  · exact absurd rfl h
  · rfl

lemma alt_final {segs : List Seg} :
    ∀ {b : Bool}, Alt (!b) segs → (h : segs ≠ []) →
      axisP (finalB b segs) (segs.getLast h) := by
  induction segs with
  | nil => intro b _ h; exact absurd rfl h
  | cons s rest ih =>
      intro b halt h
      cases halt with
      | cons haxs hrest =>
          by_cases hrne : rest = []
          · subst hrne
            simpa [finalB] using haxs
          · have hlast : (s :: rest).getLast h = rest.getLast hrne :=
              List.getLast_cons hrne
            rw [hlast, finalB_cons_ne hrne]
            exact ih (by simpa using hrest) hrne

/-- The corners computed by `corners_from` on an alternating list coincide
with the `spec_corners` closed form, `b` being the previous segment's axis
and `danchor b prev prev_sep` the constant coordinate of its displaced
copy. -/
lemma corners_from_spec (segs : List Seg) :
    ∀ (b : Bool) (prev : Seg) (prev_sep off_mid : ℚ),
      axisP b prev → Alt (!b) segs →
      corners_from prev prev_sep off_mid segs =
        Except.ok (spec_corners off_mid b (danchor b prev prev_sep) segs) := by
  induction segs with
  | nil => intro b prev ps om _ _; rfl
  | cons s rest ih =>
      intro b prev ps om hax halt
      cases halt with
      | cons haxs hrest =>
          cases b with
          | true =>
              have hax' : exactH prev := hax
              have haxs' : exactV s := haxs
              obtain ⟨hds, hdax, hdfst⟩ := displace_of_exactV haxs' om
              obtain ⟨hts, htax, htfst⟩ := displace_of_exactH hax' ps
              have hq : route_corner s prev om ps =
                  Except.ok (danchor false s om, danchor true prev ps) := by
                unfold route_corner
                rw [hds, bind_ok_l, hts, bind_ok_l, intersection_vh hdax htax,
                  hdfst, htfst]
              simp only [corners_from]
              rw [hq, bind_ok_l,
                ih false s om om haxs' (by simpa using hrest), bind_ok_l]
              rfl
          | false =>
              have hax' : exactV prev := hax
              have haxs' : exactH s := haxs
              obtain ⟨hds, hdax, hdfst⟩ := displace_of_exactH haxs' om
              obtain ⟨hts, htax, htfst⟩ := displace_of_exactV hax' ps
              have hq : route_corner s prev om ps =
                  Except.ok (danchor false prev ps, danchor true s om) := by
                unfold route_corner
                rw [hds, bind_ok_l, hts, bind_ok_l, intersection_hv hdax htax,
                  hdfst, htfst]
              simp only [corners_from]
              rw [hq, bind_ok_l,
                ih true s om om haxs' (by simpa using hrest), bind_ok_l]
              rfl

/-- Decomposition of the `spec_corners` list together with the chain
property: the head anchor `q` may be any point sharing the constant
coordinate `c` of the displaced previous segment, and the final element may
have its snap-axis coordinate replaced by anything. -/
lemma spec_corners_chain (segs : List Seg) :
    ∀ (b : Bool) (c off_mid : ℚ), segs ≠ [] →
      ∃ body qlast,
        spec_corners off_mid b c segs = body ++ [qlast] ∧
        ∀ q z : Pt, (if b then q.2 = c else q.1 = c) →
          (if finalB b segs then z.1 = qlast.1 else z.2 = qlast.2) →
          List.Chain' mstep ((q :: body) ++ [z]) := by
  induction segs with
  | nil => intro b c om h; exact absurd rfl h
  | cons s rest ih =>
      intro b c om _
      cases b with
      | true =>
          rcases hr : rest with - | ⟨r1, r2⟩
          · refine ⟨[], (danchor false s om, c), rfl, ?_⟩
            intro q z hq hz
            simp only [if_pos rfl] at hq
            have hfin : finalB true [s] = false := rfl
            rw [hfin] at hz
            simp only [Bool.false_eq_true, if_neg, if_false] at hz
            have hstep : mstep q z := Or.inr (by rw [hq, hz])
            simpa using List.chain'_pair.mpr hstep
          · subst hr
            have hrne : (r1 :: r2 : List Seg) ≠ [] := by simp
            obtain ⟨body, qlast, hsplit, hchain⟩ :=
              ih false (danchor false s om) om hrne
            refine ⟨(danchor false s om, c) :: body, qlast, ?_, ?_⟩
            · rw [show spec_corners om true c (s :: r1 :: r2) =
                  (danchor false s om, c) ::
                    spec_corners om false (danchor false s om) (r1 :: r2) from rfl,
                hsplit]
              rfl
            · intro q z hq hz
              rw [finalB_cons_ne hrne] at hz
              simp only [if_pos rfl] at hq
              have htail := hchain (danchor false s om, c) z (by simp) (by simpa using hz)
              have hshape : ((q :: ((danchor false s om, c) :: body)) ++ [z]) =
                  q :: ((danchor false s om, c) :: (body ++ [z])) := by simp
              rw [hshape, List.chain'_cons]
              refine ⟨Or.inr hq, ?_⟩
              simpa using htail
      | false =>
          rcases hr : rest with - | ⟨r1, r2⟩
          · refine ⟨[], (c, danchor true s om), rfl, ?_⟩
            intro q z hq hz
            simp only [Bool.false_eq_true, if_neg, if_false] at hq
            have hfin : finalB false [s] = true := rfl
            rw [hfin] at hz
            simp only [if_pos rfl] at hz
            have hstep : mstep q z := Or.inl (by rw [hq, hz])
            simpa using List.chain'_pair.mpr hstep
          · subst hr
            have hrne : (r1 :: r2 : List Seg) ≠ [] := by simp
            obtain ⟨body, qlast, hsplit, hchain⟩ :=
              ih true (danchor true s om) om hrne
            refine ⟨(c, danchor true s om) :: body, qlast, ?_, ?_⟩
            · rw [show spec_corners om false c (s :: r1 :: r2) =
                  (c, danchor true s om) ::
                    spec_corners om true (danchor true s om) (r1 :: r2) from rfl,
                hsplit]
              rfl
            · intro q z hq hz
              rw [finalB_cons_ne hrne] at hz
              simp only [Bool.false_eq_true, if_neg, if_false] at hq
              have htail := hchain (c, danchor true s om) z (by simp) (by simpa using hz)
              have hshape : ((q :: ((c, danchor true s om) :: body)) ++ [z]) =
                  q :: ((c, danchor true s om) :: (body ++ [z])) := by simp
              rw [hshape, List.chain'_cons]
              refine ⟨Or.inl hq, ?_⟩
              simpa using htail

lemma chain_concat {l : List Pt} {a b : Pt}
    (h : List.Chain' mstep (l ++ [a])) (hab : mstep a b) :
    List.Chain' mstep ((l ++ [a]) ++ [b]) := by
  rw [List.chain'_append]
  refine ⟨h, by simp, ?_⟩
  intro x hx y hy
  have hxa : x = a := by
    rw [List.getLast?_concat] at hx
    exact Option.some.inj hx.symm
  have hyb : y = b := by
    simp only [List.head?_cons] at hy
    exact Option.some.inj hy.symm
  rw [hxa, hyb]
  exact hab

/-- Per-port Manhattan lemma: on an alternating segment list of length at
least two whose last segment's axis matches the destination orientation,
`build_route` succeeds, and the resulting route with its head replaced by
any point lying on the displaced first segment is an exact Manhattan
chain. -/
lemma build_route_manhattan {s0 : Seg} {rest : List Seg} {off_s off_m : ℚ}
    {end_pos : Pt} {end_angle : ℚ} {b0 : Bool}
    (hax0 : axisP b0 s0) (halt : Alt (!b0) rest) (hne : rest ≠ [])
    (hend : axisP (if end_angle = 0 ∨ end_angle = 180 then true else false)
      (rest.getLast hne)) :
    ∃ t, build_route (s0 :: rest) off_s off_m end_pos end_angle = Except.ok t ∧
      t ≠ [] ∧
      ∀ q : Pt,
        (if b0 then q.2 = danchor b0 s0 off_s else q.1 = danchor b0 s0 off_s) →
        List.Chain' mstep (q :: t.tail) := by
  have hendb : axisP (finalB b0 rest) (rest.getLast hne) := alt_final halt hne
  have hb : finalB b0 rest = (if end_angle = 0 ∨ end_angle = 180 then true else false) :=
    axisP_unique hendb hend
  cases b0 with
  | true =>
      have hax0' : exactH s0 := hax0
      obtain ⟨hd0, -, -⟩ := displace_of_exactH hax0' off_s
      have hcorners := corners_from_spec rest true s0 off_s off_m hax0' halt
      obtain ⟨body, qlast, hsplit, hchain⟩ :=
        spec_corners_chain rest true (danchor true s0 off_s) off_m hne
      by_cases hea : end_angle = 0 ∨ end_angle = 180
      · have hfb : finalB true rest = true := by rw [hb, if_pos hea]
        refine ⟨((translate s0 (0, segment_sign s0 * off_s)).1 :: body) ++
          [(qlast.1, end_pos.2), (end_pos.1, end_pos.2)], ?_, by simp, ?_⟩
        · simp only [build_route]
          rw [hd0, bind_ok_l, hcorners, bind_ok_l, if_pos hea]
          have hshape : ((translate s0 (0, segment_sign s0 * off_s)).1 ::
              (spec_corners off_m true (danchor true s0 off_s) rest ++ [end_pos])) =
              (((translate s0 (0, segment_sign s0 * off_s)).1 :: body) ++
                [qlast, end_pos]) := by
            rw [hsplit]
            simp
          rw [hshape, snap_y_spec]
        · intro q hq
          have htail : ((((translate s0 (0, segment_sign s0 * off_s)).1 :: body) ++
              [(qlast.1, end_pos.2), (end_pos.1, end_pos.2)]) : List Pt).tail =
              body ++ [(qlast.1, end_pos.2), (end_pos.1, end_pos.2)] := rfl
          rw [htail]
          have hsh2 : (q : Pt) :: (body ++ [(qlast.1, end_pos.2), (end_pos.1, end_pos.2)]) =
              ((q :: body) ++ [(qlast.1, end_pos.2)]) ++ [(end_pos.1, end_pos.2)] := by
            simp
          rw [hsh2]
          exact chain_concat
            (hchain q (qlast.1, end_pos.2) (by simpa using hq) (by rw [hfb]; simp))
            (Or.inr rfl)
      · have hfb : finalB true rest = false := by rw [hb, if_neg hea]
        refine ⟨((translate s0 (0, segment_sign s0 * off_s)).1 :: body) ++
          [(end_pos.1, qlast.2), (end_pos.1, end_pos.2)], ?_, by simp, ?_⟩
        · simp only [build_route]
          rw [hd0, bind_ok_l, hcorners, bind_ok_l, if_neg hea]
          have hshape : ((translate s0 (0, segment_sign s0 * off_s)).1 ::
              (spec_corners off_m true (danchor true s0 off_s) rest ++ [end_pos])) =
              (((translate s0 (0, segment_sign s0 * off_s)).1 :: body) ++
                [qlast, end_pos]) := by
            rw [hsplit]
            simp
          rw [hshape, snap_x_spec]
        · intro q hq
          have htail : ((((translate s0 (0, segment_sign s0 * off_s)).1 :: body) ++
              [(end_pos.1, qlast.2), (end_pos.1, end_pos.2)]) : List Pt).tail =
              body ++ [(end_pos.1, qlast.2), (end_pos.1, end_pos.2)] := rfl
          rw [htail]
          have hsh2 : (q : Pt) :: (body ++ [(end_pos.1, qlast.2), (end_pos.1, end_pos.2)]) =
              ((q :: body) ++ [(end_pos.1, qlast.2)]) ++ [(end_pos.1, end_pos.2)] := by
            simp
          rw [hsh2]
          exact chain_concat
            (hchain q (end_pos.1, qlast.2) (by simpa using hq) (by rw [hfb]; simp))
            (Or.inl rfl)
  | false =>
      have hax0' : exactV s0 := hax0
      obtain ⟨hd0, -, -⟩ := displace_of_exactV hax0' off_s
      have hcorners := corners_from_spec rest false s0 off_s off_m hax0' halt
      obtain ⟨body, qlast, hsplit, hchain⟩ :=
        spec_corners_chain rest false (danchor false s0 off_s) off_m hne
      by_cases hea : end_angle = 0 ∨ end_angle = 180
      · have hfb : finalB false rest = true := by rw [hb, if_pos hea]
        refine ⟨((translate s0 (-(segment_sign s0 * off_s), 0)).1 :: body) ++
          [(qlast.1, end_pos.2), (end_pos.1, end_pos.2)], ?_, by simp, ?_⟩
        · simp only [build_route]
          rw [hd0, bind_ok_l, hcorners, bind_ok_l, if_pos hea]
          have hshape : ((translate s0 (-(segment_sign s0 * off_s), 0)).1 ::
              (spec_corners off_m false (danchor false s0 off_s) rest ++ [end_pos])) =
              (((translate s0 (-(segment_sign s0 * off_s), 0)).1 :: body) ++
                [qlast, end_pos]) := by
            rw [hsplit]
            simp
          rw [hshape, snap_y_spec]
        · intro q hq
          have htail : ((((translate s0 (-(segment_sign s0 * off_s), 0)).1 :: body) ++
              [(qlast.1, end_pos.2), (end_pos.1, end_pos.2)]) : List Pt).tail =
              body ++ [(qlast.1, end_pos.2), (end_pos.1, end_pos.2)] := rfl
          rw [htail]
          have hsh2 : (q : Pt) :: (body ++ [(qlast.1, end_pos.2), (end_pos.1, end_pos.2)]) =
              ((q :: body) ++ [(qlast.1, end_pos.2)]) ++ [(end_pos.1, end_pos.2)] := by
            simp
          rw [hsh2]
          exact chain_concat
            (hchain q (qlast.1, end_pos.2) (by simpa using hq) (by rw [hfb]; simp))
            (Or.inr rfl)
      · have hfb : finalB false rest = false := by rw [hb, if_neg hea]
        refine ⟨((translate s0 (-(segment_sign s0 * off_s), 0)).1 :: body) ++
          [(end_pos.1, qlast.2), (end_pos.1, end_pos.2)], ?_, by simp, ?_⟩
        · simp only [build_route]
          rw [hd0, bind_ok_l, hcorners, bind_ok_l, if_neg hea]
          have hshape : ((translate s0 (-(segment_sign s0 * off_s), 0)).1 ::
              (spec_corners off_m false (danchor false s0 off_s) rest ++ [end_pos])) =
              (((translate s0 (-(segment_sign s0 * off_s), 0)).1 :: body) ++
                [qlast, end_pos]) := by
            rw [hsplit]
            simp
          rw [hshape, snap_x_spec]
        · intro q hq
          have htail : ((((translate s0 (-(segment_sign s0 * off_s), 0)).1 :: body) ++
              [(end_pos.1, qlast.2), (end_pos.1, end_pos.2)]) : List Pt).tail =
              body ++ [(end_pos.1, qlast.2), (end_pos.1, end_pos.2)] := rfl
          rw [htail]
          have hsh2 : (q : Pt) :: (body ++ [(end_pos.1, qlast.2), (end_pos.1, end_pos.2)]) =
              ((q :: body) ++ [(end_pos.1, qlast.2)]) ++ [(end_pos.1, end_pos.2)] := by
            simp
          rw [hsh2]
          exact chain_concat
            (hchain q (end_pos.1, qlast.2) (by simpa using hq) (by rw [hfb]; simp))
            (Or.inl rfl)

lemma length_get_ports (l : List Port) (r : Pt) :
    (get_ports_x_or_y_distances l r).length = l.length := by
  unfold get_ports_x_or_y_distances
  by_cases he : l.isEmpty
  · rw [if_pos he, List.isEmpty_iff.mp he]
    rfl
  · rw [if_neg he]
    by_cases ha : get_list_ports_angle l = 0 ∨ get_list_ports_angle l = 180
    · rw [if_pos ha, List.length_map]
    · rw [if_neg ha, List.length_map]

lemma compute_offsets_mid_length {sep : Option ℚ} {offs m : List ℚ}
    (h : compute_offsets_mid sep offs = Except.ok m) : m.length = offs.length := by
  rcases sep with - | s
  · simp only [compute_offsets_mid] at h
    rw [← Except.ok.inj h]
  · simp only [compute_offsets_mid] at h
    by_cases hs : s = 0
    · rw [if_pos hs] at h
      rw [← Except.ok.inj h]
    · rw [if_neg hs] at h
      rcases bindOk.mp h with ⟨o0, -, h⟩
      by_cases h0 : o0 = 0
      · rw [if_pos h0] at h
        rcases bindOk.mp h with ⟨o1, -, h⟩
        rw [← Except.ok.inj h]
        simp
      · rw [if_neg h0] at h
        rcases bindOk.mp h with ⟨ol, -, h⟩
        by_cases hl : ol = 0
        · rw [if_pos hl] at h
          rcases bindOk.mp h with ⟨o2, -, h⟩
          rw [← Except.ok.inj h]
          simp
        · rw [if_neg hl] at h
          cases h

lemma length_flip_offsets (a : ℚ) (l : List ℚ) :
    (flip_offsets a l).length = l.length := by
  unfold flip_offsets
  by_cases h : a = 90 ∨ a = 270
  · rw [if_pos h, List.length_map]
  · rw [if_neg h]

lemma get_ports_y {ports : List Port} {p0 : Port} (h : ports.head? = some p0)
    (ha : p0.angle = 0 ∨ p0.angle = 180) (r : Pt) :
    get_ports_x_or_y_distances ports r = ports.map (fun p => p.y - r.2) := by
  cases ports with
  | nil => simp at h
  | cons q t =>
      cases h
      simp [get_ports_x_or_y_distances, get_list_ports_angle, ha]

lemma get_ports_x {ports : List Port} {p0 : Port} (h : ports.head? = some p0)
    (ha : ¬(p0.angle = 0 ∨ p0.angle = 180)) (r : Pt) :
    get_ports_x_or_y_distances ports r = ports.map (fun p => p.x - r.1) := by
  cases ports with
  | nil => simp at h
  | cons q t =>
      cases h
      simp only [get_ports_x_or_y_distances, get_list_ports_angle]
      rw [if_neg (by simp), if_neg ha]

lemma way_segments_head {ws : List Pt} {s0 : Seg} {rest : List Seg}
    (h : way_segments ws = s0 :: rest) : ws.head? = some s0.1 := by
  cases ws with
  | nil => simp [way_segments] at h
  | cons a t =>
      cases t with
      | nil => simp [way_segments] at h
      | cons b t2 =>
          have ha : a = s0.1 := by
            have hh := congrArg List.head? h
            simp only [way_segments, List.zip_cons_cons, List.head?_cons,
              List.tail_cons] at hh
            rw [← Option.some.inj hh]
          rw [List.head?_cons, ha]

lemma mstep_tol {a b : Pt} (h : mstep a b) :
    is_horizontal (a, b) = true ∨ is_vertical (a, b) = true := by
  rcases h with h | h
  · right
    show (decide (rabs ((a, b).1.1 - (a, b).2.1) < tol)) = true
    simp only [show ((a, b) : Seg).1.1 = a.1 from rfl, show ((a, b) : Seg).2.1 = b.1 from rfl,
      h, sub_self]
    rw [decide_eq_true_eq]
    norm_num [rabs, tol]
  · left
    show (decide (rabs ((a, b).1.2 - (a, b).2.2) < tol)) = true
    simp only [show ((a, b) : Seg).1.2 = a.2 from rfl, show ((a, b) : Seg).2.2 = b.2 from rfl,
      h, sub_self]
    rw [decide_eq_true_eq]
    norm_num [rabs, tol]

/-- **C6, amended** (see the counterexample for why the original claim
fails): whenever the normalized waypoint path has at least two segments
that are exactly Manhattan and strictly alternating, the first segment's
axis matches the source bundle orientation and the last segment's axis the
destination orientation, the source orientation is cardinal, and for every
start offset `o` the first segment satisfies `sign(s0) * o = o` (its
direction sign is `+1`, or the offset is zero — the condition the
counterexample violates), then the call succeeds and every consecutive pair
of points of every returned route forms an exactly horizontal or vertical
segment, hence also one within the tolerance `1e-5`. -/
theorem claim_C6_manhattan_amended (ports1 ports2 : List Port)
    (waypoints : List Pt) (separation : Option ℚ) (ws : List Pt)
    (p0 pend : Port) (mids : List ℚ) (s0 : Seg) (rest : List Seg)
    (hn : remove_flat_angles waypoints = Except.ok ws)
    (hsegs : way_segments ws = s0 :: rest)
    (hrest : rest ≠ [])
    (hp0 : ports1.head? = some p0)
    (hpend : ports2.head? = some pend)
    (hcard : p0.angle = 0 ∨ p0.angle = 90 ∨ p0.angle = 180 ∨ p0.angle = 270)
    (hmids : compute_offsets_mid separation
      (get_ports_x_or_y_distances ports1 s0.1) = Except.ok mids)
    (hlen2 : ports1.length ≤ ports2.length)
    (hax0 : axisP (if p0.angle = 0 ∨ p0.angle = 180 then true else false) s0)
    (halt : Alt (!(if p0.angle = 0 ∨ p0.angle = 180 then true else false)) rest)
    (hendax : axisP (if pend.orientation = 0 ∨ pend.orientation = 180 then true
      else false) (rest.getLast hrest))
    (hsign : ∀ o ∈ get_ports_x_or_y_distances ports1 s0.1,
      segment_sign s0 * o = o) :
    ∃ routes,
      generate_manhattan_bundle_waypoints ports1 ports2 waypoints separation =
        Except.ok routes ∧
      ∀ r ∈ routes, List.Chain' mstep r ∧
        List.Chain'
          (fun a b => is_horizontal (a, b) = true ∨ is_vertical (a, b) = true) r := by
  have hh : ws.head? = some s0.1 := way_segments_head hsegs
  have hOsl : (flip_offsets p0.orientation
      (get_ports_x_or_y_distances ports1 s0.1)).length = ports1.length := by
    rw [length_flip_offsets, length_get_ports]
  have hOml : (flip_offsets p0.orientation mids).length = ports1.length := by
    rw [length_flip_offsets, compute_offsets_mid_length hmids, length_get_ports]
  have hkey : ∀ j (hj : j < ports1.length),
      ∃ t, build_route_i (s0 :: rest)
          (flip_offsets p0.orientation (get_ports_x_or_y_distances ports1 s0.1))
          (flip_offsets p0.orientation mids) ports2 pend.orientation j =
          Except.ok t ∧
        t ≠ [] ∧
        List.Chain' mstep ((ports1.get ⟨j, hj⟩).midpoint :: t.tail) := by
    intro j hj
    have hjo : j < (flip_offsets p0.orientation
        (get_ports_x_or_y_distances ports1 s0.1)).length := by omega
    have hjm : j < (flip_offsets p0.orientation mids).length := by omega
    have hj2 : j < ports2.length := by omega
    obtain ⟨t, htok, htne, htch⟩ := @build_route_manhattan s0 rest
      ((flip_offsets p0.orientation
        (get_ports_x_or_y_distances ports1 s0.1)).get ⟨j, hjo⟩)
      ((flip_offsets p0.orientation mids).get ⟨j, hjm⟩)
      ((ports2.get ⟨j, hj2⟩).position) pend.orientation
      (if p0.angle = 0 ∨ p0.angle = 180 then true else false)
      hax0 halt hrest hendax
    refine ⟨t, ?_, htne, ?_⟩
    · unfold build_route_i
      rw [pyGet_ok_of_lt _ j hjo, bind_ok_l, pyGet_ok_of_lt _ j hjm, bind_ok_l,
        port_at_ok j hj2, bind_ok_l]
      exact htok
    · refine htch (ports1.get ⟨j, hj⟩).midpoint ?_
      by_cases hA : p0.angle = 0 ∨ p0.angle = 180
      · rw [if_pos hA]
        have h90 : ¬(p0.orientation = 90 ∨ p0.orientation = 270) := by
          rcases hA with h | h <;>
            rw [show p0.orientation = p0.angle from rfl, h] <;> norm_num
        have hOs : flip_offsets p0.orientation
            (get_ports_x_or_y_distances ports1 s0.1) =
            get_ports_x_or_y_distances ports1 s0.1 := by
          unfold flip_offsets
          rw [if_neg h90]
        have hv : (flip_offsets p0.orientation
            (get_ports_x_or_y_distances ports1 s0.1)).get ⟨j, hjo⟩ =
            (ports1.get ⟨j, hj⟩).y - s0.1.2 := by
          have hq : (flip_offsets p0.orientation
              (get_ports_x_or_y_distances ports1 s0.1)).get? j =
              some ((ports1.get ⟨j, hj⟩).y - s0.1.2) := by
            rw [hOs, get_ports_y hp0 hA, List.get?_map, List.get?_eq_get hj]
            rfl
          rw [List.get?_eq_get hjo] at hq
          exact Option.some.inj hq
        have hmem : (ports1.get ⟨j, hj⟩).y - s0.1.2 ∈
            get_ports_x_or_y_distances ports1 s0.1 := by
          rw [get_ports_y hp0 hA]
          exact List.mem_map_of_mem _ (List.get_mem _ _ _)
        have hsig := hsign _ hmem
        simp only [if_pos rfl]
        simp only [danchor, if_pos rfl]
        rw [hv, hsig]
        simp only [Port.midpoint, if_true, eq_self_iff_true]
        ring
      · rw [if_neg hA]
        have hB90 : p0.angle = 90 ∨ p0.angle = 270 := by
          rcases hcard with h | h | h | h
          · exact absurd (Or.inl h) hA
          · exact Or.inl h
          · exact absurd (Or.inr h) hA
          · exact Or.inr h
        have h90 : p0.orientation = 90 ∨ p0.orientation = 270 := hB90
        have hOs : flip_offsets p0.orientation
            (get_ports_x_or_y_distances ports1 s0.1) =
            (get_ports_x_or_y_distances ports1 s0.1).map (fun d => -d) := by
          unfold flip_offsets
          rw [if_pos h90]
        have hv : (flip_offsets p0.orientation
            (get_ports_x_or_y_distances ports1 s0.1)).get ⟨j, hjo⟩ =
            -((ports1.get ⟨j, hj⟩).x - s0.1.1) := by
          have hq : (flip_offsets p0.orientation
              (get_ports_x_or_y_distances ports1 s0.1)).get? j =
              some (-((ports1.get ⟨j, hj⟩).x - s0.1.1)) := by
            rw [hOs, List.get?_map, get_ports_x hp0 hA, List.get?_map,
              List.get?_eq_get hj]
            rfl
          rw [List.get?_eq_get hjo] at hq
          exact Option.some.inj hq
        have hmem : (ports1.get ⟨j, hj⟩).x - s0.1.1 ∈
            get_ports_x_or_y_distances ports1 s0.1 := by
          rw [get_ports_x hp0 hA]
          exact List.mem_map_of_mem _ (List.get_mem _ _ _)
        have hsig := hsign _ hmem
        simp only [Bool.false_eq_true, if_neg, if_false]
        simp only [danchor, Bool.false_eq_true, if_neg, if_false]
        rw [hv, mul_neg, sub_neg_eq_add, hsig]
        simp only [Port.midpoint, if_true, eq_self_iff_true]
        ring
  have hex : ∀ i ∈ List.range ports1.length,
      ∃ r, build_route_i (s0 :: rest)
        (flip_offsets p0.orientation (get_ports_x_or_y_distances ports1 s0.1))
        (flip_offsets p0.orientation mids) ports2 pend.orientation i =
        Except.ok r := by
    intro i hi
    obtain ⟨t, htok, -, -⟩ := hkey i (List.mem_range.mp hi)
    exact ⟨t, htok⟩
  obtain ⟨bs, hbs⟩ := mapME_ok_of_forall hex
  obtain ⟨hbslen, hbget⟩ := mapME_get hbs
  have hbslen' : bs.length = ports1.length := by simpa using hbslen
  have hbprop : ∀ j (hjb : j < bs.length),
      bs.get ⟨j, hjb⟩ ≠ [] ∧
      ∀ (hj : j < ports1.length),
        List.Chain' mstep
          ((ports1.get ⟨j, hj⟩).midpoint :: (bs.get ⟨j, hjb⟩).tail) := by
    intro j hjb
    have hj : j < ports1.length := by omega
    have hji : j < (List.range ports1.length).length := by simpa using hj
    have hb := hbget j hji hjb
    have hrange : (List.range ports1.length).get ⟨j, hji⟩ = j := by
      simp [List.get_eq_getElem]
    rw [hrange] at hb
    obtain ⟨t, htok, htne, htch⟩ := hkey j hj
    have hteq : bs.get ⟨j, hjb⟩ = t := by
      rw [htok] at hb
      exact (Except.ok.inj hb).symm
    rw [hteq]
    exact ⟨htne, fun hj2 => htch⟩
  have hshex : ∀ rp ∈ bs.zip ports1,
      ∃ y, (match rp.1 with
        | [] => Except.error Err.indexError
        | _ :: rest2 => Except.ok (rp.2.midpoint :: rest2)) = Except.ok y := by
    intro rp hrp
    rcases List.mem_iff_get.mp hrp with ⟨⟨k, hk⟩, hkeq⟩
    have hkb : k < bs.length := by
      rw [List.length_zip] at hk
      omega
    have hkp : k < ports1.length := by
      rw [List.length_zip] at hk
      omega
    have hzv : (bs.zip ports1).get ⟨k, hk⟩ = (bs.get ⟨k, hkb⟩, ports1.get ⟨k, hkp⟩) := by
      simp [List.get_eq_getElem, List.getElem_zip]
    have hrp1 : rp.1 = bs.get ⟨k, hkb⟩ := by
      rw [← hkeq, hzv]
    rcases hb1 : rp.1 with - | ⟨b1, rest2⟩
    · exfalso
      exact (hbprop k hkb).1 (by rw [← hrp1, hb1])
    · exact ⟨rp.2.midpoint :: rest2, rfl⟩
  obtain ⟨routes, hroutes⟩ := mapME_ok_of_forall hshex
  have hsh : set_head_to_ports ports1 bs = Except.ok routes := hroutes
  refine ⟨routes, ?_, ?_⟩
  · simp only [generate_manhattan_bundle_waypoints]
    rw [hn, bind_ok_l, hh,
      show ((match some s0.1 with
        | some p => Except.ok p
        | none => Except.error Err.indexError) : Except Err Pt) = Except.ok s0.1
        from rfl, bind_ok_l, hmids, bind_ok_l, port_at_zero hp0, bind_ok_l,
      port_at_zero hpend, bind_ok_l, hsegs, hbs, bind_ok_l]
    exact hsh
  · intro r hr
    rcases List.mem_iff_get.mp hr with ⟨⟨i, hi⟩, hieq⟩
    rcases set_head_inv hsh with ⟨hrlen, hrget⟩
    have hib : i < bs.length := by
      rw [hrlen, List.length_zip] at hi
      omega
    have hip : i < ports1.length := by
      rw [hrlen, List.length_zip] at hi
      omega
    rcases hrget i hi hib hip with ⟨b1, rest2, hbsi, hri⟩
    have hchain := (hbprop i hib).2 hip
    rw [hbsi] at hchain
    have hrtail : (b1 :: rest2 : List Pt).tail = rest2 := rfl
    rw [hrtail] at hchain
    rw [← hieq, hri]
    exact ⟨hchain, hchain.imp (fun a b hab => mstep_tol hab)⟩

/-- **C6, counterexample.**  A valid input (one east-facing port, Manhattan
waypoints) on which the returned route contains a consecutive pair that is
neither horizontal nor vertical: the first waypoint segment runs in the
`-x` direction (`sign = -1`), so the displaced first segment sits at
`y = -5` while the overwritten first point sits at the port's `y = 5`; the
first route segment `(0, 5) → (-55, -5)` is diagonal. -/
theorem claim_C6_counterexample :
    generate_manhattan_bundle_waypoints [⟨0, 5, 0, 1⟩] [⟨-55, 40, 90, 1⟩]
        [(0, 0), (-50, 0), (-50, 40)] none =
      Except.ok [[(0, 5), (-55, -5), (-55, 40)]] ∧
    is_horizontal ((0, 5), (-55, -5)) = false ∧
    is_vertical ((0, 5), (-55, -5)) = false := by
  exact ⟨by decide, by decide, by decide⟩

/-- Witness for the amended C6: the mirror-image input with the first
segment running in the `+x` direction produces an exactly Manhattan
route. -/
theorem claim_C6_witness :
    generate_manhattan_bundle_waypoints [⟨0, 5, 0, 1⟩] [⟨55, 40, 90, 1⟩]
        [(0, 0), (50, 0), (50, 40)] none =
      Except.ok [[(0, 5), (55, 5), (55, 40)]] ∧
    ∀ r ∈ [[(0, 5), (55, 5), (55, 40)]], List.Chain' mstep r ∧
      List.Chain'
        (fun a b => is_horizontal (a, b) = true ∨ is_vertical (a, b) = true) r := by
  obtain ⟨routes, hok, hall⟩ := claim_C6_manhattan_amended
    [⟨0, 5, 0, 1⟩] [⟨55, 40, 90, 1⟩] [(0, 0), (50, 0), (50, 40)] none
    [(0, 0), (50, 0), (50, 40)] ⟨0, 5, 0, 1⟩ ⟨55, 40, 90, 1⟩ [5]
    ((0, 0), (50, 0)) [((50, 0), (50, 40))]
    (by decide) (by decide) (by decide) (by decide) (by decide)
    (by norm_num) (by decide) (by norm_num)
    (by rw [if_pos (Or.inl rfl)]; exact ⟨rfl, by decide⟩)
    (by rw [if_pos (Or.inl rfl)]
        exact Alt.cons (⟨rfl, by decide⟩ : exactV ((50, 0), (50, 40))) (Alt.nil _))
    (by rw [if_neg (by decide)]
        exact (⟨rfl, by decide⟩ : exactV ((50, 0), (50, 40))))
    (by intro o ho
        have : o = 5 := by
          rw [show get_ports_x_or_y_distances [⟨0, 5, 0, 1⟩] ((0 : ℚ), (0 : ℚ)) = [5]
            from by decide] at ho
          simpa using ho
        rw [this]
        decide)
  have hroutes : routes = [[(0, 5), (55, 5), (55, 40)]] := by
    have h2 : generate_manhattan_bundle_waypoints [⟨0, 5, 0, 1⟩] [⟨55, 40, 90, 1⟩]
        [(0, 0), (50, 0), (50, 40)] none =
        Except.ok [[(0, 5), (55, 5), (55, 40)]] := by decide
    rw [hok] at h2
    exact Except.ok.inj h2
  exact ⟨by decide, hroutes ▸ hall⟩

end GdsBundle
